import Mathlib

/-!
Verification development for the QGraphics repository: a shallow embedding of
the Frame drawing engine (src/Engine/engine.py), the .qgc codec and RGB565
encoder, the lexer (src/Interpreter/lexer.py) and a fragment of the stepping
interpreter (src/Interpreter/interpreter.py), together with theorems settling
the specification claims about them.

Modelling conventions:
* Python lists become Lean lists; Python list indexing (including negative-index
  wrap-around and IndexError) is modelled by pyIdx / pyGet / pySet returning
  Option (none = IndexError).
* Python exceptions are modelled as Option.none results.
* Machine-unbounded Python ints become Int (Nat where provably non-negative).
* The on-change callback of a Frame has no Lean counterpart as a function
  value; instead every point where the source calls _notify_change appends one
  entry to an explicit event log.  Each entry records the pixel write that
  immediately preceded the notification, so that "the callback pattern of the
  equivalent per-pixel setColor calls" can be stated as a replay property.
* Unbounded loops (Bresenham, flood fill, the While statement) take a fuel
  argument; exhausted fuel yields none.  Python loops always terminate here,
  so theorems either prove success or take success as a hypothesis that the
  accompanying witness discharges on concrete input.
-/

namespace QGraphics

/-! ### Python list indexing semantics

Python l[i] accepts -len(l) <= i < len(l), wrapping negative indices by adding
len(l); anything else raises IndexError. -/

/-- Normalise a Python index against a list length: in-range non-negative
indices pass through, negative indices in range wrap by adding the length,
everything else is an IndexError (none). -/
def pyIdx (n : Nat) (i : Int) : Option Nat :=
  if 0 ≤ i ∧ i < (n : Int) then some i.toNat
  else if -(n : Int) ≤ i ∧ i < 0 then some (i + n).toNat
  else none

/-- Python list read l[i]. -/
def pyGet {α : Type} (l : List α) (i : Int) : Option α :=
  (pyIdx l.length i).bind fun j => l[j]?

/-- Python list write l[i] = v (returning the updated list). -/
def pySet {α : Type} (l : List α) (i : Int) (v : α) : Option (List α) :=
  (pyIdx l.length i).map fun j => l.set j v

/-! ### The Frame pixel grid -/

/-- One pixel: the (r, g, b) tuple stored in Frame.display. -/
abbrev Color := Int × Int × Int

/-- Frame.display: a list of 32 rows, each a list of 64 pixels. -/
abbrev Grid := List (List Color)

/-- The display invariant of a real Frame: 32 rows of 64 pixels. -/
def WF (g : Grid) : Prop := g.length = 32 ∧ ∀ row ∈ g, row.length = 64

/-- Python self.display[y][x] (read). -/
def gridGet (g : Grid) (x y : Int) : Option Color :=
  (pyGet g y).bind fun row => pyGet row x

/-- Python self.display[y][x] = c: fetch row y, update slot x in place. -/
def gridSet (g : Grid) (x y : Int) (c : Color) : Option Grid := do
  let j ← pyIdx g.length y
  let row ← g[j]?
  let row' ← pySet row x c
  pure (g.set j row')

/-- The all-black frame produced by the Frame() constructor. -/
def blankGrid : Grid := List.replicate 32 (List.replicate 64 ((0, 0, 0) : Color))

/-! ### Engine primitives with the notification log

An event records the pixel write after which _notify_change fired. -/

/-- One on-change notification, tagged with the write that triggered it. -/
abbrev Ev := Int × Int × Color

/-- Engine state: the pixel grid plus the accumulated notification log. -/
abbrev EngineSt := Grid × List Ev

/-- Frame.setColor: write the pixel, then fire _notify_change once. -/
def setColor (x y : Int) (c : Color) : EngineSt → Option EngineSt :=
  fun st => (gridSet st.1 x y c).map fun g' => (g', st.2 ++ [(x, y, c)])

/-- Frame.setRed: read the pixel, replace the red channel, notify. -/
def setRed (x y v : Int) : EngineSt → Option EngineSt :=
  fun st => do
    let (_, gc, b) ← gridGet st.1 x y
    let g' ← gridSet st.1 x y (v, gc, b)
    pure (g', st.2 ++ [(x, y, (v, gc, b))])

/-- Frame.setGreen: read the pixel, replace the green channel, notify. -/
def setGreen (x y v : Int) : EngineSt → Option EngineSt :=
  fun st => do
    let (r, _, b) ← gridGet st.1 x y
    let g' ← gridSet st.1 x y (r, v, b)
    pure (g', st.2 ++ [(x, y, (r, v, b))])

/-- Frame.setBlue: read the pixel, replace the blue channel, notify. -/
def setBlue (x y v : Int) : EngineSt → Option EngineSt :=
  fun st => do
    let (r, gc, _) ← gridGet st.1 x y
    let g' ← gridSet st.1 x y (r, gc, v)
    pure (g', st.2 ++ [(x, y, (r, gc, v))])

/-- Frame.getPixel (no notification). -/
def getPixel (g : Grid) (x y : Int) : Option Color := gridGet g x y

/-- Python range(a, b) over Int bounds. -/
def intRange (a b : Int) : List Int :=
  (List.range (b - a).toNat).map fun (k : Nat) => a + (k : Int)

/-- Sequential composition of a Python for-loop body over a list. -/
def forLoop {α : Type} (xs : List α) (body : α → EngineSt → Option EngineSt) :
    EngineSt → Option EngineSt :=
  fun st => match xs with
  | [] => some st
  | a :: rest => (body a st).bind (forLoop rest body)

/-- Frame.makeRect: for y in range(y1, y2+1): for x in range(x1, x2+1):
setColor(x, y, r, g, b). -/
def makeRect (x1 y1 x2 y2 : Int) (c : Color) : EngineSt → Option EngineSt :=
  forLoop (intRange y1 (y2 + 1)) fun y =>
    forLoop (intRange x1 (x2 + 1)) fun x => setColor x y c

/-- The loop body of Frame.makeLine (Bresenham).  The Python while-True loop
is modelled with fuel; x2 y2 sx sy dx dy are loop invariants. -/
def makeLineLoop (c : Color) (x2 y2 sx sy dx dy : Int) :
    Nat → Int → Int → Int → EngineSt → Option EngineSt
  | 0, _, _, _, _ => none
  | fuel + 1, x1, y1, err, st =>
    (if 0 ≤ x1 ∧ x1 < 64 ∧ 0 ≤ y1 ∧ y1 < 32 then setColor x1 y1 c st else some st).bind
      fun st' =>
        if x1 = x2 ∧ y1 = y2 then some st'
        else
          let e2 := 2 * err
          let p1 := if e2 ≥ dy then (err + dy, x1 + sx) else (err, x1)
          let p2 := if e2 ≤ dx then (p1.1 + dx, y1 + sy) else (p1.1, y1)
          makeLineLoop c x2 y2 sx sy dx dy fuel p1.2 p2.2 p2.1 st'

/-- Frame.makeLine: Bresenham setup plus the fuelled loop.  The fuel
dx - dy + 1 = |x2-x1| + |y2-y1| + 1 bounds the number of iterations, since
every iteration that does not terminate moves x1 or y1 one step. -/
def makeLine (x1 y1 x2 y2 : Int) (c : Color) : EngineSt → Option EngineSt :=
  let dx := |x2 - x1|
  let dy := -|y2 - y1|
  let sx : Int := if x1 < x2 then 1 else -1
  let sy : Int := if y1 < y2 then 1 else -1
  makeLineLoop c x2 y2 sx sy dx dy (dx - dy + 1).toNat x1 y1 (dx + dy)

/-- The segment loop of Frame.makeCurve: draw a Bresenham line between each
pair of consecutive sample points. -/
def curveSegs (c : Color) : (Int × Int) → List (Int × Int) → EngineSt → Option EngineSt
  | _, [], st => some st
  | prev, p :: rest, st =>
    (makeLine prev.1 prev.2 p.1 p.2 c st).bind (curveSegs c p rest)

/-- Frame.makeCurve with the float-valued Bézier sampling abstracted: pts is
the list of rounded sample points (int(round(..)) of the float Bézier
evaluation, which has no exact Lean counterpart); the source draws Bresenham
segments between consecutive samples, skipping the first point. -/
def makeCurveOn (c : Color) (pts : List (Int × Int)) : EngineSt → Option EngineSt :=
  fun st => match pts with
  | [] => some st
  | p :: rest => curveSegs c p rest st

/-- Frame.makeOval with the float span computation abstracted: rowSpan y
returns the rounded [xa, xb] span for scanline y (none models the continue
branch for t < 0).  The normalised x corners feed only the abstracted float
span, so only the y normalisation appears; both bounds guards follow the
source. -/
def makeOvalOn (rowSpan : Int → Option (Int × Int)) (y1 y2 : Int) (c : Color) :
    EngineSt → Option EngineSt :=
  let q := if y1 > y2 then (y2, y1) else (y1, y2)
  forLoop (intRange q.1 (q.2 + 1)) fun y =>
    if 0 ≤ y ∧ y < 32 then
      match rowSpan y with
      | none => fun st => some st
      | some (xa, xb) =>
        forLoop (intRange xa (xb + 1)) fun x =>
          if 0 ≤ x ∧ x < 64 then setColor x y c else fun st => some st
    else fun st => some st

/-- Frame.moveSelection: clear every listed in-range source pixel to black,
then write each color at its translated position when in range. -/
def moveSelection (pixels : List ((Int × Int) × Color)) (dx dy : Int) :
    EngineSt → Option EngineSt :=
  fun st =>
    (forLoop pixels (fun p =>
        if 0 ≤ p.1.1 ∧ p.1.1 < 64 ∧ 0 ≤ p.1.2 ∧ p.1.2 < 32 then
          setColor p.1.1 p.1.2 (0, 0, 0)
        else fun st => some st) st).bind
      (forLoop pixels fun p =>
        let nx := p.1.1 + dx
        let ny := p.1.2 + dy
        if 0 ≤ nx ∧ nx < 64 ∧ 0 ≤ ny ∧ ny < 32 then setColor nx ny p.2
        else fun st => some st)

/-- The stack loop of Frame.fill.  The Python stack appends and pops at the
end (LIFO); here push is cons and pop is head.  visited is the Python set.
Note the loop writes the grid directly and never calls _notify_change. -/
def fillLoop (target repl : Color) :
    Nat → List (Int × Int) → List (Int × Int) → Grid → Option Grid
  | 0, stack, _, g => match stack with | [] => some g | _ :: _ => none
  | _ + 1, [], _, g => some g
  | fuel + 1, (x, y) :: stack, visited, g =>
    if (x, y) ∈ visited then fillLoop target repl fuel stack visited g
    else
      let visited' := (x, y) :: visited
      match gridGet g x y with
      | none => none
      | some cur =>
        if cur ≠ target then fillLoop target repl fuel stack visited' g
        else match gridSet g x y repl with
          | none => none
          | some g' =>
            let s1 := if x > 0 then [((x - 1 : Int), y)] else []
            let s2 := if x < 63 then [((x + 1 : Int), y)] else []
            let s3 := if y > 0 then [(x, (y - 1 : Int))] else []
            let s4 := if y < 31 then [(x, (y + 1 : Int))] else []
            fillLoop target repl fuel (s4 ++ s3 ++ s2 ++ s1 ++ stack) visited' g'

/-- Frame.fill: bounds check, seed-color early return, then the flood loop.
20000 fuel dominates the true iteration bound (each iteration pops one entry;
at most 2048 productive iterations each push at most 4). -/
def fill (g : Grid) (startx starty : Int) (c : Color) : Option Grid :=
  if ¬(0 ≤ startx ∧ startx < 64 ∧ 0 ≤ starty ∧ starty < 32) then some g
  else match gridGet g startx starty with
    | none => none
    | some target =>
      if target = c then some g
      else fillLoop target c 20000 [(startx, starty)] [] g

/-- Frame.fill lifted to engine state: it touches the grid but appends no
notification events (the source mutates display directly). -/
def fillE (startx starty : Int) (c : Color) : EngineSt → Option EngineSt :=
  fun st => (fill st.1 startx starty c).map fun g' => (g', st.2)

/-! ### Replay: the callback pattern of per-pixel setColor calls

An engine operation is log-faithful when the events it appends, replayed as
plain pixel writes from the starting grid, reproduce its final grid: the
callbacks it fires are exactly those of the equivalent sequence of per-pixel
setColor calls. -/

/-- Apply a list of recorded setColor writes to a grid. -/
def replay : List Ev → Grid → Option Grid
  | [], g => some g
  | (x, y, c) :: rest, g => (gridSet g x y c).bind (replay rest)

/-- An engine operation fires on-change exactly as the equivalent per-pixel
setColor calls would: its appended events replayed from the initial grid give
its final grid. -/
def LogFaithful (f : EngineSt → Option EngineSt) : Prop :=
  ∀ g l g' l', f (g, l) = some (g', l') →
    ∃ d, l' = l ++ d ∧ replay d g = some g'

/-! ### Raw RGB565 encoder (frame_to_rgb565_bytes) -/

/-- Concatenating map: the flattened output of a loop that appends per-element
blocks in order (the idx-advancing writes of the source). -/
def catMap {α β : Type} (f : α → List β) : List α → List β
  | [] => []
  | a :: l => f a ++ catMap f l

/-- The packed uint16 value of one pixel:
(int(r) & 0x1F) << 11 | (int(g) & 0x3F) << 5 | (int(b) & 0x1F).
Masking with a non-negative Int always yields a non-negative Int, so the
result is read back as a Nat. -/
def pack565 (r g b : Int) : Nat :=
  (((Int.land r 31).toNat <<< 11) ||| ((Int.land g 63).toNat <<< 5)) |||
    (Int.land b 31).toNat

/-- The two little-endian bytes of one pixel: value & 0xFF then
(value >> 8) & 0xFF. -/
def pixelBytes (c : Color) : List Nat :=
  let v := pack565 c.1 c.2.1 c.2.2
  [v &&& 255, (v >>> 8) &&& 255]

/-- frame_to_rgb565_bytes: validate the 32x64 shape (ValueError = none), then
write two bytes per pixel in row-major order. -/
def frame_to_rgb565_bytes (g : Grid) : Option (List Nat) :=
  if g.length = 32 ∧ ∀ row ∈ g, row.length = 64 then
    some (catMap (fun row => catMap pixelBytes row) g)
  else none

/-- The decoder of the spec: recombine the two little-endian bytes, then
invert the mask-and-shift packing. -/
def decode565 (lo hi : Nat) : Nat × Nat × Nat :=
  let v := lo ||| (hi <<< 8)
  ((v >>> 11) &&& 31, (v >>> 5) &&& 63, v &&& 31)

/-! ### The .qgc codec (saveQGC / loadQGC)

json.dumps output for the payload dict (insertion order w, h, pixels, default
separators) is deterministic, so it is reproduced character-exactly; the
json.loads model parses exactly that shape back.  zlib.compress /
zlib.decompress are external-library functions and enter the theorems as an
abstract (comp, decomp) pair; writing then reading the file is modelled as the
identity on the byte list.  Tuples serialise as JSON arrays and come back as
lists; both are modelled by the Color triple, whose components are what the
round-trip claim compares. -/

/-- Decimal digits of a Nat, most significant first (fuel bounds the digit
count; n + 1 always suffices since n / 10 < n for n at least 10). -/
def natDigitsF : Nat → Nat → List Char
  | 0, _ => []
  | fuel + 1, n =>
    if n < 10 then [Char.ofNat (48 + n)]
    else natDigitsF fuel (n / 10) ++ [Char.ofNat (48 + n % 10)]

/-- Decimal digits of a Nat, most significant first. -/
def natDigits (n : Nat) : List Char := natDigitsF (n + 1) n

/-- Python str() of an int (repr used by json.dumps). -/
def intStr (n : Int) : List Char :=
  if n < 0 then '-' :: natDigits (-n).toNat else natDigits n.toNat

/-- json.dumps of one pixel tuple. -/
def tripleStr (c : Color) : List Char :=
  '[' :: intStr c.1 ++ ',' :: ' ' :: intStr c.2.1 ++ ',' :: ' ' :: intStr c.2.2 ++ [']']

/-- Comma-space separated JSON array items. -/
def joinItems : List (List Char) → List Char
  | [] => []
  | [s] => s
  | s :: rest => s ++ ',' :: ' ' :: joinItems rest

/-- The items of a JSON array after the first, each preceded by the
comma-space separator (the shape parseMore consumes). -/
def sepTail : List (List Char) → List Char
  | [] => []
  | s :: rest => ',' :: ' ' :: s ++ sepTail rest


/-- json.dumps of a JSON array from printed items. -/
def listStr (items : List (List Char)) : List Char := '[' :: joinItems items ++ [']']

/-- json.dumps of the payload dict written by saveQGC. -/
def payloadStr (g : Grid) : List Char :=
  "\x7b\"w\": 64, \"h\": 32, \"pixels\": ".toList ++
    listStr (g.map fun row => listStr (row.map tripleStr)) ++ ['\x7d']

/-- Is this an ASCII decimal digit? -/
def isDig (c : Char) : Bool := 48 ≤ c.toNat ∧ c.toNat ≤ 57

/-- The remaining input does not begin with a digit (so parseNatAux stops). -/
def notDigitStart : List Char → Prop
  | [] => True
  | c :: _ => isDig c = false

/-- Consume leading digits, folding them onto an accumulator. -/
def parseNatAux : List Char → Nat → Nat × List Char
  | [], acc => (acc, [])
  | c :: cs, acc =>
    if isDig c then parseNatAux cs (acc * 10 + (c.toNat - 48)) else (acc, c :: cs)

/-- Parse a JSON integer (optional minus sign, then digits). -/
def parseInt : List Char → Option (Int × List Char)
  | [] => none
  | c :: cs =>
    if c = '-' then
      match cs with
      | c2 :: _ =>
        if isDig c2 then
          match parseNatAux cs 0 with
          | (n, rest) => some (-(n : Int), rest)
        else none
      | [] => none
    else
      if isDig c then
        match parseNatAux (c :: cs) 0 with
        | (n, rest) => some ((n : Int), rest)
      else none

/-- Consume an expected literal text. -/
def expectStr : List Char → List Char → Option (List Char)
  | [], cs => some cs
  | e :: es, c :: cs => if e = c then expectStr es cs else none
  | _ :: _, [] => none

/-- Parse one three-element JSON int array back into a pixel triple. -/
def parseTriple (cs : List Char) : Option (Color × List Char) := do
  let cs ← expectStr ['['] cs
  let (a, cs) ← parseInt cs
  let cs ← expectStr [',', ' '] cs
  let (b, cs) ← parseInt cs
  let cs ← expectStr [',', ' '] cs
  let (c, cs) ← parseInt cs
  let cs ← expectStr [']'] cs
  pure ((a, b, c), cs)

/-- Parse the remaining items of a JSON array (after its first item), given a
parser for one item; fuel bounds the item count. -/
def parseMore {α : Type} (item : List Char → Option (α × List Char)) :
    Nat → List Char → Option (List α × List Char)
  | 0, _ => none
  | _ + 1, ']' :: cs => some ([], cs)
  | fuel + 1, ',' :: ' ' :: cs => do
    let (a, cs) ← item cs
    let (as, cs) ← parseMore item fuel cs
    pure (a :: as, cs)
  | _ + 1, _ => none

/-- Parse a JSON array with the given item parser. -/
def parseList {α : Type} (item : List Char → Option (α × List Char))
    (cs : List Char) : Option (List α × List Char) := do
  let cs ← expectStr ['['] cs
  match cs with
  | ']' :: cs => pure ([], cs)
  | _ => do
    let (a, cs) ← item cs
    let (as, cs) ← parseMore item (cs.length + 1) cs
    pure (a :: as, cs)

/-- json.loads of the payload written by saveQGC: returns (w, h, pixels). -/
def parsePayload (cs : List Char) : Option (Int × Int × Grid) := do
  let cs ← expectStr "\x7b\"w\": ".toList cs
  let (w, cs) ← parseInt cs
  let cs ← expectStr ", \"h\": ".toList cs
  let (h, cs) ← parseInt cs
  let cs ← expectStr ", \"pixels\": ".toList cs
  let (rows, cs) ← parseList (parseList parseTriple) cs
  let cs ← expectStr ['\x7d'] cs
  match cs with
  | [] => pure (w, h, rows)
  | _ :: _ => none

/-- The magic prefix QGC1 as bytes. -/
def qgcMagic : List Nat := [81, 71, 67, 49]

/-- UTF-8 encoding of the (ASCII) JSON text. -/
def strBytes (cs : List Char) : List Nat := cs.map Char.toNat

/-- Decoding file bytes back to characters. -/
def bytesStr (bs : List Nat) : List Char := bs.map Char.ofNat

/-- saveQGC with the zlib compressor abstracted: the bytes written to the
file are the magic followed by the compressed JSON payload. -/
def saveQGC (comp : List Nat → List Nat) (g : Grid) : List Nat :=
  qgcMagic ++ comp (strBytes (payloadStr g))

/-- loadQGC with the zlib decompressor abstracted: check the magic prefix,
decompress the rest, parse the JSON, reject w/h other than 64/32, and return
the pixel grid of the new Frame. -/
def loadQGC (decomp : List Nat → Option (List Nat)) (bs : List Nat) : Option Grid := do
  if bs.take 4 = qgcMagic then
    let raw ← decomp (bs.drop 4)
    let (w, h, pixels) ← parsePayload (bytesStr raw)
    if w = 64 ∧ h = 32 then pure pixels else none
  else none

/-! ### Lexer (src/Interpreter/lexer.py)

Embedded over the character list of the source string.  The Python character
class predicates isspace/isdigit/isalpha/isalnum are modelled on their ASCII
behaviour (the language's lexical grammar and the claims use only ASCII). -/

/-- Token kinds produced by the lexer. -/
inductive TokTy where
  | INT | STRING | IDENT | KW | SYM | EOF
deriving DecidableEq, Repr

/-- Token values: an integer for INT tokens, a string for all others. -/
inductive TokVal where
  | i (n : Int)
  | s (text : String)
deriving DecidableEq, Repr

/-- A lexer token with its kind, value and source position. -/
structure Token where
  ty : TokTy
  val : TokVal
  line : Nat
  col : Nat
deriving DecidableEq, Repr

/-- The KEYWORDS set of the source (22 entries, in source order). -/
def KEYWORDS : List String :=
  ["Frame", "int", "color", "pixel", "bool", "string", "list", "None",
   "true", "false", "none", "Do", "Publish", "return", "While", "For",
   "in", "if", "and", "or", "xor", "not"]

/-- The reserved-keyword set as the specification words it (23 entries,
including Send).  Refinement comparison definition: written from the spec,
not from the source. -/
def specKeywords : List String :=
  ["Frame", "int", "color", "pixel", "bool", "string", "list", "None",
   "true", "false", "none", "Do", "Publish", "Send", "return", "While",
   "For", "in", "if", "and", "or", "xor", "not"]

/-- MULTI_CHAR operator list, in source order (matched first). -/
def MULTI_CHAR : List String := ["!?", "==", "<=", ">=", "->", "=>"]

/-- SINGLE_CHAR symbol set. -/
def SINGLE_CHAR : List Char := "()\x7b\x7d[]<>:.,?!=+-*|&~".toList

/-- Python str.isspace on ASCII. -/
def isSpaceCh (c : Char) : Bool :=
  c = ' ' ∨ c = '\t' ∨ c = '\n' ∨ c = '\r' ∨ c = '\x0b' ∨ c = '\x0c'

/-- Python str.isalpha on ASCII. -/
def isAlphaCh (c : Char) : Bool :=
  (65 ≤ c.toNat ∧ c.toNat ≤ 90) ∨ (97 ≤ c.toNat ∧ c.toNat ≤ 122)

/-- Python str.isalnum on ASCII. -/
def isAlnumCh (c : Char) : Bool := isAlphaCh c ∨ isDig c

/-- Line/column bookkeeping of advance() for one consumed character. -/
def stepPos (c : Char) (line col : Nat) : Nat × Nat :=
  if c = '\n' then (line + 1, 1) else (line, col + 1)

/-- The comment skip loop: consume until the closing percent (or the end),
consuming the closing percent too. -/
def skipComment : List Char → Nat → Nat → List Char × Nat × Nat
  | [], line, col => ([], line, col)
  | '%' :: cs, line, col => (cs, line, col + 1)
  | c :: cs, line, col =>
    let p := stepPos c line col
    skipComment cs p.1 p.2

/-- The string literal loop: collect characters until the closing quote,
translating backslash escapes (unknown escapes keep the escaped character; a
trailing backslash or a missing closing quote ends the token at the end of
input, as in the source). -/
def strLit (quote : Char) : List Char → Nat → Nat → List Char → List Char × List Char × Nat × Nat
  | [], line, col, buf => (buf.reverse, [], line, col)
  | '\\' :: rest, line, col, buf =>
    match rest with
    | [] => (buf.reverse, [], line, col + 1)
    | e :: rest' =>
      let mapped : Char :=
        if e = 'n' then '\n' else if e = 't' then '\t' else if e = 'r' then '\r'
        else if e = '\\' then '\\' else if e = '"' then '"' else if e = '\'' then '\''
        else e
      let p1 := stepPos '\\' line col
      let p2 := stepPos e p1.1 p1.2
      strLit quote rest' p2.1 p2.2 (mapped :: buf)
  | c :: rest, line, col, buf =>
    if c = quote then (buf.reverse, rest, line, col + 1)
    else
      let p := stepPos c line col
      strLit quote rest p.1 p.2 (c :: buf)

/-- Collect the longest run of characters satisfying p (digit and identifier
runs never contain newlines, so columns advance by the run length). -/
def takeRun (p : Char → Bool) : List Char → List Char × List Char
  | [] => ([], [])
  | c :: cs =>
    if p c then
      let r := takeRun p cs
      (c :: r.1, r.2)
    else ([], c :: cs)

/-- Numeric value of a digit run. -/
def digitsVal (ds : List Char) : Nat := ds.foldl (fun a c => a * 10 + (c.toNat - 48)) 0

/-- Try the MULTI_CHAR operators in order against the remaining input. -/
def matchMulti : List String → List Char → Option (String × List Char)
  | [], _ => none
  | op :: ops, cs =>
    match expectStr op.toList cs with
    | some rest => some (op, rest)
    | none => matchMulti ops cs

/-- The main loop of lex_source.  Fuel decreases once per loop iteration;
every iteration consumes at least one character, so length + 1 fuel always
suffices. -/
def lexLoop : Nat → List Char → Nat → Nat → Option (List Token)
  | 0, _, _, _ => none
  | _ + 1, [], line, col => some [⟨TokTy.EOF, TokVal.s "EOF", line, col⟩]
  | fuel + 1, c :: cs, line, col =>
    if isSpaceCh c then
      let p := stepPos c line col
      lexLoop fuel cs p.1 p.2
    else if c = '%' then
      let r := skipComment cs line (col + 1)
      lexLoop fuel r.1 r.2.1 r.2.2
    else if c = '"' ∨ c = '\'' then
      let r := strLit c cs line (col + 1) []
      (lexLoop fuel r.2.1 r.2.2.1 r.2.2.2).map
        (fun toks => ⟨TokTy.STRING, TokVal.s (String.mk r.1), line, col⟩ :: toks)
    else if isDig c then
      let r := takeRun isDig cs
      (lexLoop fuel r.2 line (col + 1 + r.1.length)).map
        (fun toks => ⟨TokTy.INT, TokVal.i (digitsVal (c :: r.1)), line, col⟩ :: toks)
    else if isAlphaCh c ∨ c = '_' then
      let r := takeRun (fun ch => isAlnumCh ch ∨ ch = '_') cs
      let text := String.mk (c :: r.1)
      let ty := if text ∈ KEYWORDS then TokTy.KW else TokTy.IDENT
      (lexLoop fuel r.2 line (col + 1 + r.1.length)).map
        (fun toks => ⟨ty, TokVal.s text, line, col⟩ :: toks)
    else
      match matchMulti MULTI_CHAR (c :: cs) with
      | some (op, rest) =>
        (lexLoop fuel rest line (col + op.length)).map
          (fun toks => ⟨TokTy.SYM, TokVal.s op, line, col⟩ :: toks)
      | none =>
        if c ∈ SINGLE_CHAR then
          (lexLoop fuel cs line (col + 1)).map
            (fun toks => ⟨TokTy.SYM, TokVal.s (String.mk [c]), line, col⟩ :: toks)
        else none

/-- lex_source: tokenize a whole source string (none = SyntaxError). -/
def lex_source (s : String) : Option (List Token) :=
  lexLoop (s.toList.length + 1) s.toList 1 1

/-! ### Interpreter fragment (src/Interpreter/interpreter.py)

A faithful executable fragment of the stepping interpreter, covering the
constructs the claims touch: all expression forms, simple statements
(VarDecl, Assign to a variable, PixelAssign, ExprStmt), If, While and For,
and the Frame-oriented builtins.  Deliberate restrictions, none of which any
claim depends on:
* user-defined functions and ReturnStmt are omitted (their closures alias
  mutable Environment objects, which the scope-stack embedding cannot
  share); with no user calls, eval_expr_steps yields nothing and coincides
  with eval_expr, so a single evaluator models both;
* Assign to an IndexExpr target mutates a shared Python list object, which
  the immutable Value embedding cannot represent, and is omitted;
* Publish/Send, the float-based makeOval/makeCurve builtins and the
  file-backed LoadQGC/SaveQGC builtins are omitted;
* int() conversions in builtins are modelled for int and bool arguments
  (the only numeric Values);
* every Frame reachable in the fragment was created by a tracked
  constructor path (_default_value, the Frame builtin), as in the
  interpreter, so all frames are change-tracked;
* Python exceptions (RuntimeErrorWithLine, NameError, TypeError) are none.

Each on-change notification of the engine layer makes the interpreter's
_on_frame_changed listener record the frame as last modified; the embedding
additionally appends the frame id to an instrumentation log (onChangeLog),
one entry per notification, so that claims about which frame fired last can
be stated. -/

/-- The modelled built-in functions. -/
inductive BName where
  | bFrame | bSetRed | bSetGreen | bSetBlue | bSetColor
  | bGetPixel | bGetRed | bGetGreen | bGetBlue
  | bMakeRect | bMakeLine | bFill
deriving DecidableEq

/-- Runtime values (the closed sum of the dynamic type). -/
inductive Value where
  | vnull
  | vbool (b : Bool)
  | vint (n : Int)
  | vstr (s : String)
  | vlist (items : List Value)
  | vtuple (items : List Value)
  | vframe (id : Nat)
  | vpixelref (id : Nat) (x y : Value)
  | vbuiltin (b : BName)

/-- Expressions (the parser's expression nodes). -/
inductive Expr where
  | lit (v : Value) (line : Int)
  | var (name : String) (line : Int)
  | unary (op : String) (e : Expr) (line : Int)
  | binary (op : String) (l r : Expr) (line : Int)
  | index (base idx : Expr) (line : Int)
  | call (name : String) (args : List Expr) (line : Int)
  | colorLit (r g b : Expr) (line : Int)
  | pixelLit (x y : Expr) (line : Int)
  | listLit (items : List Expr) (line : Int)
  | paren (e : Expr) (line : Int)
  | walrusAssign (name : String) (e : Expr) (line : Int)
  | walrusDecl (ty name : String) (e : Expr) (line : Int)

/-- Statements of the fragment. -/
inductive Stmt where
  | varDecl (ty name : String) (value : Option Expr) (line : Int)
  | assignVar (name : String) (value : Expr) (line : Int)
  | pixelAssign (pointer value : Expr) (line : Int)
  | exprStmt (e : Expr) (line : Int)
  | ifStmt (cond : Expr) (thenB : List Stmt) (elseB : Option (List Stmt)) (line : Int)
  | whileStmt (cond : Expr) (body : List Stmt) (line : Int)
  | forStmt (ty : Option String) (varName : String) (iterable : Expr)
      (body : List Stmt) (line : Int)

/-- The line recorded in a StepInfo for a statement. -/
def stmtLine : Stmt → Int
  | .varDecl _ _ _ ln => ln
  | .assignVar _ _ ln => ln
  | .pixelAssign _ _ ln => ln
  | .exprStmt _ ln => ln
  | .ifStmt _ _ _ ln => ln
  | .whileStmt _ _ ln => ln
  | .forStmt _ _ _ _ ln => ln

/-- The simple statements: the ones that get reset / emit bracketing in
execute_stmt_steps (everything that is not If/While/For in the fragment). -/
def isSimple : Stmt → Bool
  | .varDecl _ _ _ _ => true
  | .assignVar _ _ _ => true
  | .pixelAssign _ _ _ => true
  | .exprStmt _ _ => true
  | _ => false

/-- Interpreter state: the frame store (ids are list positions), the scope
stack (innermost first, the last scope is the globals), the
most-recently-mutated slot, the notification instrumentation log, the
post-statement handler flag with its call log, and the emitted StepInfo
list. -/
structure IState where
  frames : List Grid
  scopes : List (List (String × Value))
  lastModified : Option Nat
  onChangeLog : List Nat
  handlerInstalled : Bool
  handlerCalls : List Nat
  steps : List (Int × Stmt)

/-- Environment.get: walk the scope chain for the first binding. -/
def envGet : List (List (String × Value)) → String → Option Value
  | [], _ => none
  | s :: rest, name =>
    match s.find? (fun p => p.1 = name) with
    | some p => some p.2
    | none => envGet rest name

/-- Replace the first binding of name inside one scope. -/
def scopeSet : List (String × Value) → String → Value → Option (List (String × Value))
  | [], _, _ => none
  | (k, w) :: rest, name, v =>
    if k = name then some ((k, v) :: rest)
    else (scopeSet rest name v).map fun r => (k, w) :: r

/-- Environment.set: update the nearest scope holding the name (none models
the NameError for an undefined variable). -/
def envSet : List (List (String × Value)) → String → Value → Option (List (List (String × Value)))
  | [], _, _ => none
  | s :: rest, name, v =>
    match scopeSet s name v with
    | some s' => some (s' :: rest)
    | none => (envSet rest name v).map fun r => s :: r

/-- Environment.define: bind in the innermost scope (shadowing any older
binding there, since lookup takes the newest). -/
def envDefine (scopes : List (List (String × Value))) (name : String) (v : Value) :
    List (List (String × Value)) :=
  match scopes with
  | [] => [[(name, v)]]
  | s :: rest => ((name, v) :: s) :: rest

/-- Truthiness: Python bool() over the value domain. -/
def truthy : Value → Bool
  | .vnull => false
  | .vbool b => b
  | .vint n => n ≠ 0
  | .vstr s => s ≠ ""
  | .vlist items => ¬items.isEmpty
  | .vtuple items => ¬items.isEmpty
  | .vframe _ => true
  | .vpixelref _ _ _ => true
  | .vbuiltin _ => true

mutual

/-- Python == over the value domain (bool coerces to int; list and tuple
compare elementwise against their own kind; frames and builtins by
identity). -/
def pyEq : Value → Value → Bool
  | .vint a, .vint b => a = b
  | .vint a, .vbool b => a = (if b then 1 else 0)
  | .vbool a, .vint b => (if a then (1 : Int) else 0) = b
  | .vbool a, .vbool b => a = b
  | .vnull, .vnull => true
  | .vstr a, .vstr b => a = b
  | .vlist xs, .vlist ys => pyEqList xs ys
  | .vtuple xs, .vtuple ys => pyEqList xs ys
  | .vframe i, .vframe j => i = j
  | .vpixelref i x y, .vpixelref j x' y' => decide (i = j) && pyEq x x' && pyEq y y'
  | .vbuiltin a, .vbuiltin b => a = b
  | _, _ => false

/-- Elementwise Python == on sequences. -/
def pyEqList : List Value → List Value → Bool
  | [], [] => true
  | x :: xs, y :: ys => pyEq x y && pyEqList xs ys
  | _, _ => false

end

/-- A numeric value as a Python int (bool is an int subclass). -/
def asIntV : Value → Option Int
  | .vint n => some n
  | .vbool b => some (if b then 1 else 0)
  | _ => none

/-- Python ordering comparison; defined here for numbers and strings (the
claims use no deep sequence comparisons). -/
def pyCmp (l r : Value) : Option Ordering :=
  match asIntV l, asIntV r with
  | some a, some b => some (compare a b)
  | _, _ =>
    match l, r with
    | .vstr a, .vstr b => some (compare a b)
    | _, _ => none

/-- Python + on the value domain: numbers add, strings and sequences
concatenate. -/
def pyAdd : Value → Value → Option Value
  | .vstr a, .vstr b => some (.vstr (a ++ b))
  | .vlist a, .vlist b => some (.vlist (a ++ b))
  | .vtuple a, .vtuple b => some (.vtuple (a ++ b))
  | l, r => do
    let a ← asIntV l
    let b ← asIntV r
    pure (.vint (a + b))

/-- Python - restricted to numbers. -/
def pySub (l r : Value) : Option Value := do
  let a ← asIntV l
  let b ← asIntV r
  pure (Value.vint (a - b))

/-- Python * modelled on numbers (sequence replication is unused by the
claims). -/
def pyMul (l r : Value) : Option Value := do
  let a ← asIntV l
  let b ← asIntV r
  pure (Value.vint (a * b))

/-- Interpreter._mask_int: mask to 32 bits. -/
def maskInt (v : Int) : Int := Int.land v 4294967295

/-- Interpreter.eval_unary. -/
def evalUnary (op : String) (v : Value) : Option Value :=
  if op = "not" then some (.vbool (!truthy v))
  else if op = "~" then
    match asIntV v with
    | some n => some (.vint (maskInt (-n - 1)))
    | none => none
  else if op = "-" then
    match asIntV v with
    | some n => some (.vint (-n))
    | none => none
  else none

/-- Interpreter.eval_binary: operates on two already-evaluated operands. -/
def evalBinary (op : String) (l r : Value) : Option Value :=
  if op = "->" then
    match l, r with
    | .vframe fid, .vtuple [x, y] => some (.vpixelref fid x y)
    | _, _ => none
  else if op = "+" then pyAdd l r
  else if op = "-" then pySub l r
  else if op = "*" then pyMul l r
  else if op = "==" then some (.vbool (pyEq l r))
  else if op = "<" then (pyCmp l r).map fun o => .vbool (o = Ordering.lt)
  else if op = ">" then (pyCmp l r).map fun o => .vbool (o = Ordering.gt)
  else if op = "<=" then (pyCmp l r).map fun o => .vbool (o ≠ Ordering.gt)
  else if op = ">=" then (pyCmp l r).map fun o => .vbool (o ≠ Ordering.lt)
  else if op = "and" then some (if truthy l then r else l)
  else if op = "or" then some (if truthy l then l else r)
  else if op = "xor" then some (.vbool (truthy l ^^ truthy r))
  else if op = "|" then do
    let a ← asIntV l
    let b ← asIntV r
    pure (.vint (maskInt (Int.lor a b)))
  else if op = "&" then do
    let a ← asIntV l
    let b ← asIntV r
    pure (.vint (maskInt (Int.land a b)))
  else none

/-- Python sequence indexing base[idx] for the indexable values. -/
def pyIndexV : Value → Int → Option Value
  | .vlist items, i => pyGet items i
  | .vtuple items, i => pyGet items i
  | .vstr s, i => (pyGet s.toList i).map fun c => .vstr (String.mk [c])
  | _, _ => none

/-- Allocate a new change-tracked Frame in the store. -/
def newFrame (st : IState) : Value × IState :=
  (.vframe st.frames.length, { st with frames := st.frames ++ [blankGrid] })

/-- Run an engine operation against one stored frame; every notification the
operation fired drives _on_frame_changed (recording the frame as last
modified) and is appended to the instrumentation log. -/
def runFrameOp (fid : Nat) (op : EngineSt → Option EngineSt) (st : IState) :
    Option IState := do
  let g ← st.frames[fid]?
  let (g', l) ← op (g, [])
  pure { st with
    frames := st.frames.set fid g'
    lastModified := if l.isEmpty then st.lastModified else some fid
    onChangeLog := st.onChangeLog ++ l.map fun _ => fid }

/-- Interpreter._unwrap_point. -/
def unwrapPoint : Value → Option (Int × Int)
  | .vpixelref _ x y => do
    let a ← asIntV x
    let b ← asIntV y
    pure (a, b)
  | .vtuple [x, y] => do
    let a ← asIntV x
    let b ← asIntV y
    pure (a, b)
  | _ => none

/-- Unpack a color tuple argument of a builtin through int(). -/
def unpackColor : Value → Option Color
  | .vtuple [r, g, b] => do
    let ri ← asIntV r
    let gi ← asIntV g
    let bi ← asIntV b
    pure (ri, gi, bi)
  | _ => none

/-- Apply one built-in function to already-evaluated arguments. -/
def applyBuiltin : BName → List Value → IState → Option (Value × IState)
  | .bFrame, args, st => if args.isEmpty then some (newFrame st) else none
  | .bSetColor, [ptr, color], st =>
    match ptr with
    | .vpixelref fid x y => do
      let c ← unpackColor color
      let xi ← asIntV x
      let yi ← asIntV y
      let st' ← runFrameOp fid (setColor xi yi c) st
      pure (.vnull, st')
    | _ => none
  | .bSetRed, [ptr, v], st =>
    match ptr with
    | .vpixelref fid x y => do
      let vi ← asIntV v
      let xi ← asIntV x
      let yi ← asIntV y
      let st' ← runFrameOp fid (setRed xi yi vi) st
      pure (.vnull, st')
    | _ => none
  | .bSetGreen, [ptr, v], st =>
    match ptr with
    | .vpixelref fid x y => do
      let vi ← asIntV v
      let xi ← asIntV x
      let yi ← asIntV y
      let st' ← runFrameOp fid (setGreen xi yi vi) st
      pure (.vnull, st')
    | _ => none
  | .bSetBlue, [ptr, v], st =>
    match ptr with
    | .vpixelref fid x y => do
      let vi ← asIntV v
      let xi ← asIntV x
      let yi ← asIntV y
      let st' ← runFrameOp fid (setBlue xi yi vi) st
      pure (.vnull, st')
    | _ => none
  | .bGetPixel, [ptr], st =>
    match ptr with
    | .vpixelref fid x y => do
      let xi ← asIntV x
      let yi ← asIntV y
      let g ← st.frames[fid]?
      let (r, gc, b) ← gridGet g xi yi
      pure (.vtuple [.vint r, .vint gc, .vint b], st)
    | _ => none
  | .bGetRed, [ptr], st =>
    match ptr with
    | .vpixelref fid x y => do
      let xi ← asIntV x
      let yi ← asIntV y
      let g ← st.frames[fid]?
      let c ← gridGet g xi yi
      pure (.vint c.1, st)
    | _ => none
  | .bGetGreen, [ptr], st =>
    match ptr with
    | .vpixelref fid x y => do
      let xi ← asIntV x
      let yi ← asIntV y
      let g ← st.frames[fid]?
      let c ← gridGet g xi yi
      pure (.vint c.2.1, st)
    | _ => none
  | .bGetBlue, [ptr], st =>
    match ptr with
    | .vpixelref fid x y => do
      let xi ← asIntV x
      let yi ← asIntV y
      let g ← st.frames[fid]?
      let c ← gridGet g xi yi
      pure (.vint c.2.2, st)
    | _ => none
  | .bMakeRect, [frame, p1, p2, color], st =>
    match frame with
    | .vframe fid => do
      let (x1, y1) ← unwrapPoint p1
      let (x2, y2) ← unwrapPoint p2
      let c ← unpackColor color
      let st' ← runFrameOp fid (makeRect x1 y1 x2 y2 c) st
      pure (.vnull, st')
    | _ => none
  | .bMakeLine, [frame, p1, p2, color], st =>
    match frame with
    | .vframe fid => do
      let (x1, y1) ← unwrapPoint p1
      let (x2, y2) ← unwrapPoint p2
      let c ← unpackColor color
      let st' ← runFrameOp fid (makeLine x1 y1 x2 y2 c) st
      pure (.vnull, st')
    | _ => none
  | .bFill, [frame, sx, sy, color], st =>
    match frame, sx, sy with
    | .vframe fid, .vint sxi, .vint syi => do
      let c ← unpackColor color
      let st' ← runFrameOp fid (fillE sxi syi c) st
      pure (.vnull, st')
    | _, _, _ => none
  | _, _, _ => none

/-- The built-in bindings installed in the global scope (install order of
_install_builtins, restricted to the fragment). -/
def builtinScope : List (String × Value) :=
  [("Frame", .vbuiltin .bFrame), ("setRed", .vbuiltin .bSetRed),
   ("setGreen", .vbuiltin .bSetGreen), ("setBlue", .vbuiltin .bSetBlue),
   ("setColor", .vbuiltin .bSetColor), ("getPixel", .vbuiltin .bGetPixel),
   ("getRed", .vbuiltin .bGetRed), ("getGreen", .vbuiltin .bGetGreen),
   ("getBlue", .vbuiltin .bGetBlue), ("makeRect", .vbuiltin .bMakeRect),
   ("makeLine", .vbuiltin .bMakeLine), ("Fill", .vbuiltin .bFill)]

/-- TYPE_DEFAULTS plus the tracked-Frame default of _default_value. -/
def defaultValue (ty : String) (st : IState) : Option (Value × IState) :=
  if ty = "Frame" then some (newFrame st)
  else
    (if ty = "int" then some (Value.vint 0)
     else if ty = "color" then some (.vtuple [.vint 0, .vint 0, .vint 0])
     else if ty = "pixel" then some (.vtuple [.vint 0, .vint 0])
     else if ty = "bool" then some (.vbool false)
     else if ty = "string" then some (.vstr "")
     else if ty = "list" then some (.vlist [])
     else if ty = "None" then some .vnull
     else none).map fun v => (v, st)

mutual

/-- Interpreter.eval_expr (identically eval_expr_steps on the fragment,
which contains no user-function calls and hence no nested yields). -/
def evalExpr : Expr → IState → Option (Value × IState)
  | .lit v _, st => some (v, st)
  | .var name _, st => (envGet st.scopes name).map fun v => (v, st)
  | .unary op e _, st => do
    let (v, st') ← evalExpr e st
    let r ← evalUnary op v
    pure (r, st')
  | .binary op a b _, st => do
    let (l, st1) ← evalExpr a st
    let (r, st2) ← evalExpr b st1
    let v ← evalBinary op l r
    pure (v, st2)
  | .index b i _, st => do
    let (bv, st1) ← evalExpr b st
    let (iv, st2) ← evalExpr i st1
    match asIntV iv with
    | some n => (pyIndexV bv n).map fun v => (v, st2)
    | none => none
  | .call name args _, st => do
    let (vs, st1) ← evalArgs args st
    match envGet st1.scopes name with
    | some (.vbuiltin b) => applyBuiltin b vs st1
    | _ => none
  | .colorLit a b c _, st => do
    let (rv, st1) ← evalExpr a st
    let (gv, st2) ← evalExpr b st1
    let (bv, st3) ← evalExpr c st2
    pure (.vtuple [rv, gv, bv], st3)
  | .pixelLit a b _, st => do
    let (xv, st1) ← evalExpr a st
    let (yv, st2) ← evalExpr b st1
    pure (.vtuple [xv, yv], st2)
  | .listLit items _, st => do
    let (vs, st1) ← evalArgs items st
    pure (.vlist vs, st1)
  | .paren e _, st => evalExpr e st
  | .walrusAssign name e _, st => do
    let (v, st1) ← evalExpr e st
    let scopes' ← envSet st1.scopes name v
    pure (v, { st1 with scopes := scopes' })
  | .walrusDecl _ name e _, st => do
    let (v, st1) ← evalExpr e st
    pure (v, { st1 with scopes := envDefine st1.scopes name v })

/-- Evaluate an expression list left to right, threading the state. -/
def evalArgs : List Expr → IState → Option (List Value × IState)
  | [], st => some ([], st)
  | e :: rest, st => do
    let (v, st1) ← evalExpr e st
    let (vs, st2) ← evalArgs rest st1
    pure (v :: vs, st2)

end

/-- Append one StepInfo emission. -/
def pushStep (st : IState) (line : Int) (s : Stmt) : IState :=
  { st with steps := st.steps ++ [(line, s)] }

/-- Interpreter._reset_statement_frame. -/
def resetFrameSlot (st : IState) : IState := { st with lastModified := none }

/-- Interpreter._emit_statement_frame: with a handler installed and a
recorded last-modified frame, call the handler once and clear the slot. -/
def emitFrameSlot (st : IState) : IState :=
  if st.handlerInstalled then
    match st.lastModified with
    | none => st
    | some f => { st with handlerCalls := st.handlerCalls ++ [f], lastModified := none }
  else st

/-- Interpreter.assign_pixel: the pointer must be a PixelRef and the value a
3-tuple; write through Frame.setColor. -/
def assignPixel (p v : Value) (st : IState) : Option IState :=
  match p with
  | .vpixelref fid x y =>
    match v with
    | .vtuple [r, g, b] => do
      let c ← unpackColor (.vtuple [r, g, b])
      let xi ← asIntV x
      let yi ← asIntV y
      runFrameOp fid (setColor xi yi c) st
    | _ => none
  | _ => none

mutual

/-- Interpreter.execute_stmt_steps.  Fuel strictly decreases on every mutual
call; exhausted fuel is none. -/
def execStmt : Nat → Stmt → IState → Option IState
  | 0, _, _ => none
  | fuel + 1, s, st =>
    match s with
    | .ifStmt cond thenB elseB ln => do
      let st1 := pushStep st ln s
      let (v, st2) ← evalExpr cond st1
      if truthy v then execBlock fuel thenB st2
      else match elseB with
        | some b => execBlock fuel b st2
        | none => some st2
    | .whileStmt cond body ln => do
      let st1 := pushStep st ln s
      let (v, st2) ← evalExpr cond st1
      if truthy v then do
        let st3 ← execBlock fuel body st2
        execStmt fuel s st3
      else some st2
    | .forStmt _ varName iterable body ln => do
      let (v, st1) ← evalExpr iterable st
      match v with
      | .vlist items => forIter fuel items varName body ln s st1
      | _ => none
    | _ => do
      let st1 := resetFrameSlot (pushStep st (stmtLine s) s)
      match s with
      | .varDecl ty name value _ => do
        let (v, st2) ← match value with
          | some e => evalExpr e st1
          | none => defaultValue ty st1
        pure (emitFrameSlot { st2 with scopes := envDefine st2.scopes name v })
      | .assignVar name value _ => do
        let (v, st2) ← evalExpr value st1
        let scopes' ← envSet st2.scopes name v
        pure (emitFrameSlot { st2 with scopes := scopes' })
      | .pixelAssign pointer value _ => do
        let (v, st2) ← evalExpr value st1
        let (p, st3) ← evalExpr pointer st2
        let st4 ← assignPixel p v st3
        pure (emitFrameSlot st4)
      | .exprStmt e _ => do
        let (_, st2) ← evalExpr e st1
        pure (emitFrameSlot st2)
      | _ => none

/-- Interpreter.execute_block_steps. -/
def execBlock : Nat → List Stmt → IState → Option IState
  | 0, _, _ => none
  | _ + 1, [], st => some st
  | fuel + 1, s :: rest, st => (execStmt fuel s st).bind (execBlock fuel rest)

/-- The per-item loop of the For statement: one StepInfo per iteration, then
the body in a fresh child scope that is dropped afterwards. -/
def forIter : Nat → List Value → String → List Stmt → Int → Stmt → IState → Option IState
  | 0, _, _, _, _, _, _ => none
  | _ + 1, [], _, _, _, _, st => some st
  | fuel + 1, item :: rest, varName, body, ln, s, st => do
    let st1 := pushStep st ln s
    let st2 := { st1 with scopes := [(varName, item)] :: st1.scopes }
    let st3 ← execBlock fuel body st2
    let st4 := { st3 with scopes := st3.scopes.tail }
    forIter fuel rest varName body ln s st4

end

/-! ### Spec-side accessors and predicates used by the theorems -/

/-- Frame.getRed. -/
def getRed (g : Grid) (x y : Int) : Option Int := (gridGet g x y).map fun c => c.1

/-- Frame.getGreen. -/
def getGreen (g : Grid) (x y : Int) : Option Int := (gridGet g x y).map fun c => c.2.1

/-- Frame.getBlue. -/
def getBlue (g : Grid) (x y : Int) : Option Int := (gridGet g x y).map fun c => c.2.2

/-- Plain non-wrapping cell access at Nat coordinates (column x of row y):
the specification-level view of the grid. -/
def cell (g : Grid) (x y : Nat) : Option Color := g[y]?.bind fun row => row[x]?

/-- The wrapped column index Python resolves an in-range Int column to. -/
def wrapX (x : Int) : Nat := (if x < 0 then x + 64 else x).toNat

/-- The wrapped row index Python resolves an in-range Int row to. -/
def wrapY (y : Int) : Nat := (if y < 0 then y + 32 else y).toNat

/-- Where the most-recently-mutated slot points after the notifications d
have fired on top of a previous slot value. -/
def trackAfter (prev : Option Nat) (d : List Nat) : Option Nat :=
  match d.getLast? with
  | none => prev
  | some f => some f

/-- What expression evaluation may do to the bookkeeping parts of the
interpreter state: it never touches the StepInfo list, the handler flag or
the handler call log, and it moves the most-recently-mutated slot exactly as
the notifications it fired dictate. -/
def EvalMono (st st' : IState) : Prop :=
  st'.handlerCalls = st.handlerCalls ∧
  st'.handlerInstalled = st.handlerInstalled ∧
  st'.steps = st.steps ∧
  ∃ d, st'.onChangeLog = st.onChangeLog ++ d ∧
    st'.lastModified = trackAfter st.lastModified d

/-- The shape of a terminating run of the While arm of execute_stmt_steps:
every iteration first appends exactly one StepInfo for the While and then
evaluates the condition; n iterations see a true condition and execute the
body; the final condition evaluation is false and nothing more is emitted for
the While. -/
inductive WhileRun (cond : Expr) (body : List Stmt) (ln : Int) (w : Stmt) :
    Nat → IState → IState → Prop where
  | stop (s s' : IState) (v : Value)
      (hc : evalExpr cond (pushStep s ln w) = some (v, s'))
      (hv : truthy v = false) :
      WhileRun cond body ln w 0 s s'
  | iter (s s1 s2 s' : IState) (v : Value) (n fuel : Nat)
      (hc : evalExpr cond (pushStep s ln w) = some (v, s1))
      (hv : truthy v = true)
      (hb : execBlock fuel body s1 = some s2)
      (rest : WhileRun cond body ln w n s2 s') :
      WhileRun cond body ln w (n + 1) s s'

/-! ### Concrete inputs for counterexamples and witnesses -/

/-- A grid whose (0,0) pixel is black and every other pixel is (5,5,5), so a
flood fill from (0,0) touches exactly one pixel. -/
def demoGrid : Grid :=
  (((0 : Int), (0 : Int), (0 : Int)) :: List.replicate 63 (5, 5, 5)) ::
    List.replicate 31 (List.replicate 64 ((5, 5, 5) : Color))

/-- demoGrid after fill(0, 0, (2,2,2)). -/
def demoGridFilled : Grid :=
  (((2 : Int), (2 : Int), (2 : Int)) :: List.replicate 63 (5, 5, 5)) ::
    List.replicate 31 (List.replicate 64 ((5, 5, 5) : Color))

/-- A stepping-mode interpreter state with the post-statement handler
installed, one tracked frame holding demoGrid, and the variable f bound to
it in the global scope. -/
def demoState : IState :=
  { frames := [demoGrid]
    scopes := [("f", .vframe 0) :: builtinScope]
    lastModified := none
    onChangeLog := []
    handlerInstalled := true
    handlerCalls := []
    steps := [] }

/-- The statement Fill{f 0 0 (2 2 2)}. -/
def fillStmt : Stmt :=
  .exprStmt (.call "Fill"
    [.var "f" 1, .lit (.vint 0) 1, .lit (.vint 0) 1,
     .colorLit (.lit (.vint 2) 1) (.lit (.vint 2) 1) (.lit (.vint 2) 1) 1] 1) 1

/-- The statement f -> (0 0) = (7 7 7). -/
def pixelStmt : Stmt :=
  .pixelAssign
    (.binary "->" (.var "f" 2) (.pixelLit (.lit (.vint 0) 2) (.lit (.vint 0) 2) 2) 2)
    (.colorLit (.lit (.vint 7) 2) (.lit (.vint 7) 2) (.lit (.vint 7) 2) 2) 2

/-- The statement f -> (-1 -1) = (9 9 9): negative coordinates. -/
def negPixelStmt : Stmt :=
  .pixelAssign
    (.binary "->" (.var "f" 2) (.pixelLit (.lit (.vint (-1)) 2) (.lit (.vint (-1)) 2) 2) 2)
    (.colorLit (.lit (.vint 9) 2) (.lit (.vint 9) 2) (.lit (.vint 9) 2) 2) 2

/-- An interpreter state for expression-level tests: x bound to 0. -/
def xState : IState :=
  { frames := []
    scopes := [[("x", .vint 0)]]
    lastModified := none
    onChangeLog := []
    handlerInstalled := false
    handlerCalls := []
    steps := [] }

/-- The expression false and (x = 5): a falsy left operand and a
side-effecting right operand. -/
def andWalrus : Expr :=
  .binary "and" (.lit (.vbool false) 1) (.walrusAssign "x" (.lit (.vint 5) 1) 1) 1

/-- xState after the walrus assignment ran. -/
def xState5 : IState :=
  { frames := []
    scopes := [[("x", .vint 5)]]
    lastModified := none
    onChangeLog := []
    handlerInstalled := false
    handlerCalls := []
    steps := [] }

/-- The statement While (false) : ! . -/
def whileFalse : Stmt := .whileStmt (.lit (.vbool false) 3) [] 3

/-- blankGrid after setColor(0, 0, (1,1,1)). -/
def blankGridSet00 : Grid :=
  (((1 : Int), (1 : Int), (1 : Int)) :: List.replicate 63 (0, 0, 0)) ::
    List.replicate 31 (List.replicate 64 ((0, 0, 0) : Color))

/-! ## Theorems -/

/-! ### Python indexing lemmas -/

theorem pyIdx_nonneg {n : Nat} {i : Int} (h0 : 0 ≤ i) (h : i < (n : Int)) :
    pyIdx n i = some i.toNat := by
  simp [pyIdx, h0, h]

theorem pyIdx_lt {n : Nat} {i : Int} {j : Nat} (h : pyIdx n i = some j) : j < n := by
  unfold pyIdx at h
  split at h
  · next hc => cases h; omega
  · split at h
    · next hc => cases h; omega
    · cases h

theorem gridSet_decomp {g g' : Grid} {x y : Int} {c : Color} (h : gridSet g x y c = some g') :
    ∃ j row k, pyIdx g.length y = some j ∧ g[j]? = some row ∧
      pyIdx row.length x = some k ∧ g' = g.set j (row.set k c) := by
  unfold gridSet pySet at h
  cases hj : pyIdx g.length y with
  | none => rw [hj] at h; cases h
  | some j =>
    rw [hj] at h
    simp only [Option.bind_eq_bind, Option.some_bind] at h
    cases hrow : g[j]? with
    | none => rw [hrow] at h; cases h
    | some row =>
      rw [hrow] at h
      simp only [Option.bind_eq_bind, Option.some_bind] at h
      cases hk : pyIdx row.length x with
      | none => simp [hk] at h
      | some k =>
        simp [hk] at h
        exact ⟨j, row, k, rfl, hrow, hk, h.symm⟩

theorem gridGet_decomp {g : Grid} {x y : Int} {c : Color} (h : gridGet g x y = some c) :
    ∃ j row k, pyIdx g.length y = some j ∧ g[j]? = some row ∧
      pyIdx row.length x = some k ∧ row[k]? = some c := by
  unfold gridGet pyGet at h
  cases hj : pyIdx g.length y with
  | none => rw [hj] at h; cases h
  | some j =>
    rw [hj] at h
    simp only [Option.some_bind] at h
    cases hrow : g[j]? with
    | none => simp [hrow] at h
    | some row =>
      simp [hrow] at h
      cases hk : pyIdx row.length x with
      | none => rw [hk] at h; cases h
      | some k =>
        rw [hk] at h
        exact ⟨j, row, k, rfl, hrow, hk, h⟩

/-- A successful write leaves every cell either unchanged or holding the
written color. -/
theorem gridSet_weak {g g' : Grid} {x y : Int} {c : Color} (h : gridSet g x y c = some g') :
    ∀ a b : Int, gridGet g' a b = gridGet g a b ∨ gridGet g' a b = some c := by
  obtain ⟨j, row, k, hj, hrow, hk, rfl⟩ := gridSet_decomp h
  intro a b
  unfold gridGet pyGet
  rw [List.length_set]
  cases hb : pyIdx g.length b with
  | none => left; rfl
  | some j' =>
    simp only [Option.some_bind]
    by_cases hjj : j' = j
    · subst hjj
      have hjlt : j' < g.length := pyIdx_lt hb
      rw [List.getElem?_set_self (by simpa using hjlt), hrow]
      simp only [Option.some_bind, List.length_set]
      cases ha : pyIdx row.length a with
      | none => left; rfl
      | some k' =>
        simp only [Option.some_bind]
        by_cases hkk : k' = k
        · subst hkk
          right
          have hklt : k' < row.length := pyIdx_lt ha
          rw [List.getElem?_set_self (by simpa using hklt)]
        · left
          rw [List.getElem?_set_ne (by omega)]
    · left
      rw [List.getElem?_set_ne (by omega)]

/-- A successful write makes the written cell hold the written color. -/
theorem gridGet_gridSet_self {g g' : Grid} {x y : Int} {c : Color}
    (h : gridSet g x y c = some g') : gridGet g' x y = some c := by
  obtain ⟨j, row, k, hj, hrow, hk, rfl⟩ := gridSet_decomp h
  unfold gridGet pyGet
  rw [List.length_set, hj]
  simp only [Option.some_bind]
  have hjlt : j < g.length := pyIdx_lt hj
  rw [List.getElem?_set_self (by simpa using hjlt)]
  simp only [Option.some_bind, List.length_set]
  rw [hk]
  simp only [Option.some_bind]
  have hklt : k < row.length := pyIdx_lt hk
  rw [List.getElem?_set_self (by simpa using hklt)]

/-- Reading a cell successfully means writing it succeeds. -/
theorem gridSet_of_gridGet {g : Grid} {x y : Int} {cur : Color} (c : Color)
    (h : gridGet g x y = some cur) : ∃ g', gridSet g x y c = some g' := by
  obtain ⟨j, row, k, hj, hrow, hk, _⟩ := gridGet_decomp h
  refine ⟨g.set j (row.set k c), ?_⟩
  unfold gridSet pySet
  rw [hj]
  simp only [Option.bind_eq_bind, Option.some_bind]
  rw [hrow]
  simp only [Option.some_bind]
  simp [hk]

/-! ### The replay framework for claim C1 -/

theorem replay_append (a b : List Ev) (g : Grid) :
    replay (a ++ b) g = (replay a g).bind (replay b) := by
  induction a generalizing g with
  | nil => rfl
  | cons e rest ih =>
    obtain ⟨x, y, c⟩ := e
    simp only [List.cons_append, replay]
    cases gridSet g x y c with
    | none => rfl
    | some g' => simpa using ih g'

theorem lf_some : LogFaithful (fun st => some st) := by
  intro g l g' l' h
  cases h
  exact ⟨[], by simp, rfl⟩

theorem lf_none : LogFaithful (fun _ => none) := by
  intro g l g' l' h
  cases h

theorem lf_bind {f h : EngineSt → Option EngineSt}
    (hf : LogFaithful f) (hh : LogFaithful h) :
    LogFaithful (fun st => (f st).bind h) := by
  intro g l g' l' hfh
  have hfh' : (f (g, l)).bind h = some (g', l') := hfh
  clear hfh
  cases hmid : f (g, l) with
  | none => rw [hmid] at hfh'; cases hfh'
  | some mid =>
    rw [hmid] at hfh'
    obtain ⟨g1, l1⟩ := mid
    obtain ⟨d1, hd1, hr1⟩ := hf g l g1 l1 hmid
    obtain ⟨d2, hd2, hr2⟩ := hh g1 l1 g' l' hfh'
    refine ⟨d1 ++ d2, by simp [hd2, hd1], ?_⟩
    rw [replay_append, hr1]
    simpa using hr2

theorem lf_setColor (x y : Int) (c : Color) : LogFaithful (setColor x y c) := by
  intro g l g' l' h
  unfold setColor at h
  cases hs : gridSet g x y c with
  | none => rw [hs] at h; cases h
  | some g2 =>
    rw [hs] at h
    simp only [Option.map_some] at h
    obtain ⟨rfl, rfl⟩ := Prod.mk.injEq .. ▸ (Option.some.injEq .. ▸ h)
    exact ⟨[(x, y, c)], rfl, by simpa [replay] using hs⟩

theorem lf_setRed (x y v : Int) : LogFaithful (setRed x y v) := by
  intro g l g' l' h
  unfold setRed at h
  cases hg : gridGet g x y with
  | none => rw [hg] at h; cases h
  | some cur =>
    rw [hg] at h
    obtain ⟨r, gc, b⟩ := cur
    simp only [Option.bind_eq_bind, Option.some_bind] at h
    cases hs : gridSet g x y (v, gc, b) with
    | none => rw [hs] at h; cases h
    | some g2 =>
      rw [hs] at h
      simp only [Option.some_bind] at h
      cases h
      exact ⟨[(x, y, (v, gc, b))], rfl, by simpa [replay] using hs⟩

theorem lf_setGreen (x y v : Int) : LogFaithful (setGreen x y v) := by
  intro g l g' l' h
  unfold setGreen at h
  cases hg : gridGet g x y with
  | none => rw [hg] at h; cases h
  | some cur =>
    rw [hg] at h
    obtain ⟨r, gc, b⟩ := cur
    simp only [Option.bind_eq_bind, Option.some_bind] at h
    cases hs : gridSet g x y (r, v, b) with
    | none => rw [hs] at h; cases h
    | some g2 =>
      rw [hs] at h
      simp only [Option.some_bind] at h
      cases h
      exact ⟨[(x, y, (r, v, b))], rfl, by simpa [replay] using hs⟩

theorem lf_setBlue (x y v : Int) : LogFaithful (setBlue x y v) := by
  intro g l g' l' h
  unfold setBlue at h
  cases hg : gridGet g x y with
  | none => rw [hg] at h; cases h
  | some cur =>
    rw [hg] at h
    obtain ⟨r, gc, b⟩ := cur
    simp only [Option.bind_eq_bind, Option.some_bind] at h
    cases hs : gridSet g x y (r, gc, v) with
    | none => rw [hs] at h; cases h
    | some g2 =>
      rw [hs] at h
      simp only [Option.some_bind] at h
      cases h
      exact ⟨[(x, y, (r, gc, v))], rfl, by simpa [replay] using hs⟩

theorem lf_forLoop {α : Type} (xs : List α) (body : α → EngineSt → Option EngineSt)
    (hb : ∀ a, LogFaithful (body a)) : LogFaithful (forLoop xs body) := by
  induction xs with
  | nil => exact lf_some
  | cons a rest ih =>
    have : forLoop (a :: rest) body = fun st => (body a st).bind (forLoop rest body) := rfl
    rw [this]
    exact lf_bind (hb a) ih

theorem lf_makeRect (x1 y1 x2 y2 : Int) (c : Color) :
    LogFaithful (makeRect x1 y1 x2 y2 c) := by
  unfold makeRect
  exact lf_forLoop _ _ fun y => lf_forLoop _ _ fun x => lf_setColor x y c

theorem lf_makeLineLoop (c : Color) (x2 y2 sx sy dx dy : Int) (fuel : Nat) :
    ∀ x1 y1 err, LogFaithful (makeLineLoop c x2 y2 sx sy dx dy fuel x1 y1 err) := by
  induction fuel with
  | zero => intro x1 y1 err; exact lf_none
  | succ fuel ih =>
    intro x1 y1 err
    have heq : makeLineLoop c x2 y2 sx sy dx dy (fuel + 1) x1 y1 err = fun st =>
        ((if 0 ≤ x1 ∧ x1 < 64 ∧ 0 ≤ y1 ∧ y1 < 32 then setColor x1 y1 c st else some st).bind
          fun st' =>
            if x1 = x2 ∧ y1 = y2 then some st'
            else
              let e2 := 2 * err
              let p1 := if e2 ≥ dy then (err + dy, x1 + sx) else (err, x1)
              let p2 := if e2 ≤ dx then (p1.1 + dx, y1 + sy) else (p1.1, y1)
              makeLineLoop c x2 y2 sx sy dx dy fuel p1.2 p2.2 p2.1 st') := rfl
    rw [heq]
    refine lf_bind ?_ ?_
    · by_cases hb : 0 ≤ x1 ∧ x1 < 64 ∧ 0 ≤ y1 ∧ y1 < 32
      · simpa [hb] using lf_setColor x1 y1 c
      · simpa [hb] using lf_some
    · by_cases hend : x1 = x2 ∧ y1 = y2
      · simpa [hend] using lf_some
      · simpa [hend] using ih _ _ _

theorem lf_makeLine (x1 y1 x2 y2 : Int) (c : Color) :
    LogFaithful (makeLine x1 y1 x2 y2 c) := by
  unfold makeLine
  exact lf_makeLineLoop _ _ _ _ _ _ _ _ _ _ _

theorem lf_curveSegs (c : Color) (pts : List (Int × Int)) :
    ∀ prev, LogFaithful (curveSegs c prev pts) := by
  induction pts with
  | nil => intro prev; exact lf_some
  | cons p rest ih =>
    intro prev
    have heq : curveSegs c prev (p :: rest) = fun st =>
        (makeLine prev.1 prev.2 p.1 p.2 c st).bind (curveSegs c p rest) := rfl
    rw [heq]
    exact lf_bind (lf_makeLine _ _ _ _ _) (ih p)

theorem lf_makeCurveOn (c : Color) (pts : List (Int × Int)) :
    LogFaithful (makeCurveOn c pts) := by
  cases pts with
  | nil => exact lf_some
  | cons p rest => exact lf_curveSegs c rest p

theorem lf_makeOvalOn (rowSpan : Int → Option (Int × Int)) (y1 y2 : Int) (c : Color) :
    LogFaithful (makeOvalOn rowSpan y1 y2 c) := by
  unfold makeOvalOn
  refine lf_forLoop _ _ fun y => ?_
  by_cases hy : 0 ≤ y ∧ y < 32
  · simp only [hy, if_true]
    cases rowSpan y with
    | none => exact lf_some
    | some sp =>
      obtain ⟨xa, xb⟩ := sp
      refine lf_forLoop _ _ fun x => ?_
      by_cases hx : 0 ≤ x ∧ x < 64
      · simpa [hx] using lf_setColor x y c
      · simpa [hx] using lf_some
  · simpa [hy] using lf_some

theorem lf_moveSelection (pixels : List ((Int × Int) × Color)) (dx dy : Int) :
    LogFaithful (moveSelection pixels dx dy) := by
  unfold moveSelection
  refine lf_bind (lf_forLoop _ _ fun p => ?_) (lf_forLoop _ _ fun p => ?_)
  · by_cases hb : 0 ≤ p.1.1 ∧ p.1.1 < 64 ∧ 0 ≤ p.1.2 ∧ p.1.2 < 32
    · simpa [hb] using lf_setColor p.1.1 p.1.2 (0, 0, 0)
    · simpa [hb] using lf_some
  · by_cases hb : 0 ≤ p.1.1 + dx ∧ p.1.1 + dx < 64 ∧ 0 ≤ p.1.2 + dy ∧ p.1.2 + dy < 32
    · simpa [hb] using lf_setColor (p.1.1 + dx) (p.1.2 + dy) p.2
    · simpa [hb] using lf_some

/-- fill never appends notification events. -/
theorem fill_preserves_log (sx sy : Int) (c : Color) (g : Grid) (l : List Ev)
    (g' : Grid) (l' : List Ev) (h : fillE sx sy c (g, l) = some (g', l')) : l' = l := by
  unfold fillE at h
  cases hf : fill g sx sy c with
  | none => rw [hf] at h; cases h
  | some g2 => rw [hf] at h; cases h; rfl

/-- A log-faithful operation that changed the grid fired at least one
notification. -/
theorem lf_changed {f : EngineSt → Option EngineSt} (hf : LogFaithful f)
    {g : Grid} {l : List Ev} {g' : Grid} {l' : List Ev}
    (h : f (g, l) = some (g', l')) (hne : g' ≠ g) : l' ≠ l := by
  intro hl
  obtain ⟨d, hd, hr⟩ := hf g l g' l' h
  rw [hl] at hd
  have hdnil : d = [] := by
    have := congrArg List.length hd
    simp at this
    simpa [List.length_eq_zero] using this.symm
  rw [hdnil] at hr
  simp [replay] at hr
  exact hne hr.symm

/-! ### Claim C1 -/

/-- C1 counterexample: the mutating primitive call fill(0, 0, (2,2,2)) on
demoGrid changes pixel (0,0) from (0,0,0) to (2,2,2) yet fires no on-change
callback at all, while the equivalent per-pixel setColor call would fire
once; this refutes the claim that every mutating primitive fires the
callback in the per-pixel setColor pattern (and in particular at least once
when a pixel changes). -/
theorem c1_fill_mutates_without_callback :
    (fillE 0 0 (2, 2, 2) (demoGrid, [])).map (fun st => (st.2, cell st.1 0 0)) =
      some ([], some (2, 2, 2)) ∧
    cell demoGrid 0 0 = some (0, 0, 0) := ⟨rfl, rfl⟩

/-- C1 (amended): every mutating Frame primitive except fill fires the
on-change callback in exactly the pattern of the equivalent per-pixel
setColor calls — formalised as log-faithfulness: replaying its notification
events as plain pixel writes from the starting grid reproduces its final
grid — and therefore fires at least once whenever it changes a pixel; fill
mutates the grid directly and never fires the callback, even when it changes
pixels. -/
theorem c1_callback_pattern :
    (∀ x y c, LogFaithful (setColor x y c)) ∧
    (∀ x y v, LogFaithful (setRed x y v)) ∧
    (∀ x y v, LogFaithful (setGreen x y v)) ∧
    (∀ x y v, LogFaithful (setBlue x y v)) ∧
    (∀ x1 y1 x2 y2 c, LogFaithful (makeRect x1 y1 x2 y2 c)) ∧
    (∀ x1 y1 x2 y2 c, LogFaithful (makeLine x1 y1 x2 y2 c)) ∧
    (∀ c pts, LogFaithful (makeCurveOn c pts)) ∧
    (∀ rowSpan y1 y2 c, LogFaithful (makeOvalOn rowSpan y1 y2 c)) ∧
    (∀ pixels dx dy, LogFaithful (moveSelection pixels dx dy)) ∧
    (∀ f, LogFaithful f → ∀ g l g' l', f (g, l) = some (g', l') → g' ≠ g → l' ≠ l) ∧
    (∀ sx sy c g l g' l', fillE sx sy c (g, l) = some (g', l') → l' = l) :=
  ⟨lf_setColor, lf_setRed, lf_setGreen, lf_setBlue, lf_makeRect, lf_makeLine,
   fun c pts => lf_makeCurveOn c pts,
   fun rowSpan y1 y2 c => lf_makeOvalOn rowSpan y1 y2 c,
   fun pixels dx dy => lf_moveSelection pixels dx dy,
   fun _ hf _ _ _ _ h hne => lf_changed hf h hne,
   fill_preserves_log⟩

/-- C1 witness: the setColor clause at pixel (0,0) of the blank grid, with
its hypothesis discharged on that concrete call. -/
theorem c1_callback_pattern_witness :
    ∃ d, ([((0 : Int), (0 : Int), ((1 : Int), 1, 1))] : List Ev) = [] ++ d ∧
      replay d blankGrid = some blankGridSet00 :=
  c1_callback_pattern.1 0 0 (1, 1, 1) blankGrid [] blankGridSet00
    [(0, 0, (1, 1, 1))] (by rfl)

/-! ### Claim C7: flood-fill idempotence -/

/-- The flood loop only ever writes the replacement color: every cell of the
result either kept its value or holds the replacement. -/
theorem fillLoop_writes_only (target repl : Color) :
    ∀ (fuel : Nat) (stack visited : List (Int × Int)) (g g' : Grid),
      fillLoop target repl fuel stack visited g = some g' →
      ∀ a b : Int, gridGet g' a b = gridGet g a b ∨ gridGet g' a b = some repl := by
  intro fuel
  induction fuel with
  | zero =>
    intro stack visited g g' h a b
    cases stack with
    | nil => cases h; left; rfl
    | cons p rest => cases h
  | succ fuel ih =>
    intro stack visited g g' h a b
    cases stack with
    | nil => cases h; left; rfl
    | cons p rest =>
      obtain ⟨x, y⟩ := p
      by_cases hv : (x, y) ∈ visited
      · rw [fillLoop, if_pos hv] at h
        exact ih _ _ _ _ h a b
      · rw [fillLoop, if_neg hv] at h
        cases hg : gridGet g x y with
        | none => rw [hg] at h; dsimp only at h; cases h
        | some cur =>
          rw [hg] at h
          dsimp only at h
          by_cases hc : cur ≠ target
          · rw [if_pos hc] at h
            exact ih _ _ _ _ h a b
          · rw [if_neg hc] at h
            cases hs : gridSet g x y repl with
            | none => rw [hs] at h; dsimp only at h; cases h
            | some g2 =>
              rw [hs] at h
              dsimp only at h
              rcases ih _ _ _ _ h a b with h2 | h2
              · rw [h2]
                exact gridSet_weak hs a b
              · right; exact h2

/-- C7 (confirmed): flood fill is idempotent.  If fill(g, x, y, c) completes
with result g1, then fill(g1, x, y, c) completes and leaves the grid exactly
g1: either the first call was a no-op early return (out of bounds, or the
seed already has color c), which repeats identically, or the first call
painted the seed pixel c, so the second call takes the seed-color early
return. -/
theorem c7_fill_idempotent (g : Grid) (x y : Int) (c : Color) (g1 : Grid)
    (h : fill g x y c = some g1) : fill g1 x y c = some g1 := by
  unfold fill at h ⊢
  by_cases hb : ¬(0 ≤ x ∧ x < 64 ∧ 0 ≤ y ∧ y < 32)
  · rw [if_pos hb] at h ⊢
  · rw [if_neg hb] at h ⊢
    cases hg : gridGet g x y with
    | none => rw [hg] at h; cases h
    | some target =>
      rw [hg] at h
      dsimp only at h
      by_cases ht : target = c
      · rw [if_pos ht] at h
        cases h
        rw [hg]
        dsimp only
        rw [if_pos ht]
      · rw [if_neg ht] at h
        have h20 : (20000 : Nat) = 19999 + 1 := rfl
        rw [h20] at h
        have hnv : ((x, y) ∉ ([] : List (Int × Int))) := by simp
        rw [fillLoop, if_neg hnv, hg] at h
        dsimp only at h
        rw [if_neg (by simp [ht])] at h
        obtain ⟨g2, hset⟩ := gridSet_of_gridGet c hg
        rw [hset] at h
        dsimp only at h
        have hx2 : gridGet g2 x y = some c := gridGet_gridSet_self hset
        have hg1 : gridGet g1 x y = some c := by
          rcases fillLoop_writes_only target c _ _ _ _ _ h x y with h2 | h2
          · rw [h2, hx2]
          · exact h2
        rw [hg1]
        dsimp only
        rw [if_pos rfl]

/-- C7 witness: the idempotence theorem applied to the concrete fill of
demoGrid at (0,0), whose first call is evaluated by rfl. -/
theorem c7_fill_idempotent_witness : fill demoGridFilled 0 0 (2, 2, 2) = some demoGridFilled :=
  c7_fill_idempotent demoGrid 0 0 (2, 2, 2) demoGridFilled (by rfl)

/-! ### Claim C9: makeRect -/

theorem mem_intRange {a b v : Int} : v ∈ intRange a b ↔ a ≤ v ∧ v < b := by
  unfold intRange
  constructor
  · intro h
    obtain ⟨k, hk, he⟩ := List.mem_map.mp h
    have hk' := List.mem_range.mp hk
    omega
  · intro h
    refine List.mem_map.mpr ⟨(v - a).toNat, List.mem_range.mpr ?_, ?_⟩ <;> omega

theorem pyIdx_inv_nonneg {n : Nat} {i : Int} {j : Nat} (h0 : 0 ≤ i)
    (h : pyIdx n i = some j) : j = i.toNat ∧ i < (n : Int) := by
  unfold pyIdx at h
  split at h
  · next hc => cases h; exact ⟨rfl, hc.2⟩
  · split at h
    · next hc => omega
    · cases h

theorem WF_gridSet {g g' : Grid} {x y : Int} {c : Color} (hwf : WF g)
    (h : gridSet g x y c = some g') : WF g' := by
  obtain ⟨j, row, k, hj, hrow, hk, rfl⟩ := gridSet_decomp h
  obtain ⟨hlen, hrows⟩ := hwf
  refine ⟨by simpa using hlen, ?_⟩
  intro r hr
  rcases List.mem_or_eq_of_mem_set hr with hr | rfl
  · exact hrows r hr
  · rw [List.length_set]
    exact hrows row (List.getElem?_mem hrow)

theorem gridGet_inbounds {g : Grid} {x y : Int} (hwf : WF g)
    (hx : 0 ≤ x) (hx2 : x < 64) (hy : 0 ≤ y) (hy2 : y < 32) :
    ∃ cv, gridGet g x y = some cv := by
  obtain ⟨hlen, hrows⟩ := hwf
  unfold gridGet pyGet
  rw [hlen, pyIdx_nonneg hy (by omega)]
  simp only [Option.some_bind]
  have hylt : y.toNat < g.length := by omega
  obtain ⟨row, hrow⟩ : ∃ row, g[y.toNat]? = some row :=
    ⟨g[y.toNat], List.getElem?_eq_getElem hylt⟩
  rw [hrow]
  simp only [Option.some_bind]
  have hrl : row.length = 64 := hrows row (List.getElem?_mem hrow)
  rw [hrl, pyIdx_nonneg hx (by omega)]
  simp only [Option.some_bind]
  have hxlt : x.toNat < row.length := by omega
  exact ⟨row[x.toNat], List.getElem?_eq_getElem hxlt⟩

theorem gridSet_inbounds {g : Grid} {x y : Int} (c : Color) (hwf : WF g)
    (hx : 0 ≤ x) (hx2 : x < 64) (hy : 0 ≤ y) (hy2 : y < 32) :
    ∃ g', gridSet g x y c = some g' := by
  obtain ⟨cv, hcv⟩ := gridGet_inbounds hwf hx hx2 hy hy2
  exact gridSet_of_gridGet c hcv

/-- Precise cell-level characterisation of a successful pixel write at
non-negative coordinates. -/
theorem cell_gridSet {g g' : Grid} {x y : Int} {c : Color}
    (hx : 0 ≤ x) (hy : 0 ≤ y) (h : gridSet g x y c = some g') :
    ∀ a b : Nat, cell g' a b =
      if a = x.toNat ∧ b = y.toNat then some c else cell g a b := by
  obtain ⟨j, row, k, hj, hrow, hk, rfl⟩ := gridSet_decomp h
  obtain ⟨hj', hylt⟩ := pyIdx_inv_nonneg hy hj
  obtain ⟨hk', hxlt'⟩ := pyIdx_inv_nonneg hx hk
  subst hj'
  subst hk'
  intro a b
  have hjlt : y.toNat < g.length := by omega
  have hklt : x.toNat < row.length := by omega
  unfold cell
  by_cases hb : b = y.toNat
  · subst hb
    rw [List.getElem?_set_self hjlt, hrow]
    simp only [Option.some_bind]
    by_cases ha : a = x.toNat
    · subst ha
      rw [List.getElem?_set_self hklt]
      simp
    · rw [List.getElem?_set_ne (by omega)]
      rw [if_neg (by tauto)]
  · rw [List.getElem?_set_ne (by omega)]
    rw [if_neg (by tauto)]

theorem gridGet_eq_cell {g : Grid} {x y : Int} (hwf : WF g)
    (hx : 0 ≤ x) (hx2 : x < 64) (hy : 0 ≤ y) (hy2 : y < 32) :
    gridGet g x y = cell g x.toNat y.toNat := by
  obtain ⟨hlen, hrows⟩ := hwf
  unfold gridGet pyGet cell
  rw [hlen, pyIdx_nonneg hy (by omega)]
  simp only [Option.some_bind]
  cases hrow : g[y.toNat]? with
  | none => rfl
  | some row =>
    simp only [Option.some_bind]
    rw [hrows row (List.getElem?_mem hrow), pyIdx_nonneg hx (by omega)]
    rfl

/-- Filling one row of in-range columns by repeated setColor. -/
theorem rowFill_spec (y : Int) (c : Color) (hy : 0 ≤ y) (hy2 : y < 32) :
    ∀ (xs : List Int), (∀ x ∈ xs, 0 ≤ x ∧ x < 64) →
      ∀ (g : Grid) (l : List Ev), WF g →
      ∃ g' l', forLoop xs (fun x => setColor x y c) (g, l) = some (g', l') ∧ WF g' ∧
        ∀ a b : Nat, cell g' a b =
          if (a : Int) ∈ xs ∧ b = y.toNat then some c else cell g a b := by
  intro xs
  induction xs with
  | nil =>
    intro _ g l hwf
    exact ⟨g, l, rfl, hwf, by intro a b; simp [mem_intRange]⟩
  | cons x rest ih =>
    intro hmem g l hwf
    obtain ⟨hx0, hx64⟩ := hmem x (List.mem_cons_self x rest)
    obtain ⟨g2, hset⟩ := gridSet_inbounds c hwf hx0 hx64 hy hy2
    have hstep : setColor x y c (g, l) = some (g2, l ++ [(x, y, c)]) := by
      unfold setColor
      rw [hset]
      rfl
    obtain ⟨g', l', hloop, hwf', hcell⟩ :=
      ih (fun v hv => hmem v (List.mem_cons_of_mem x hv)) g2 (l ++ [(x, y, c)])
        (WF_gridSet hwf hset)
    refine ⟨g', l', ?_, hwf', ?_⟩
    · show (setColor x y c (g, l)).bind (forLoop rest fun x => setColor x y c) = _
      rw [hstep]
      simpa using hloop
    · intro a b
      rw [hcell a b]
      have h2 := cell_gridSet hx0 hy hset a b
      by_cases hrest : ((a : Int) ∈ rest ∧ b = y.toNat)
      · rw [if_pos hrest, if_pos ⟨List.mem_cons.mpr (Or.inr hrest.1), hrest.2⟩]
      · rw [if_neg hrest, h2]
        by_cases hhit : (a = x.toNat ∧ b = y.toNat)
        · obtain ⟨hh1, hh2⟩ := hhit
          rw [if_pos ⟨hh1, hh2⟩, if_pos ⟨List.mem_cons.mpr (Or.inl (by omega)), hh2⟩]
        · rw [if_neg hhit, if_neg ?_]
          rintro ⟨hax, hby⟩
          rcases List.mem_cons.mp hax with hax | hax
          · exact hhit ⟨by omega, hby⟩
          · exact hrest ⟨hax, hby⟩

/-- Filling a list of in-range rows, each over the same column range. -/
theorem rectFill_spec (x1 x2 : Int) (c : Color) (hx1 : 0 ≤ x1) (hx2 : x2 < 64) :
    ∀ (ys : List Int), (∀ y ∈ ys, 0 ≤ y ∧ y < 32) →
      ∀ (g : Grid) (l : List Ev), WF g →
      ∃ g' l',
        forLoop ys (fun y => forLoop (intRange x1 (x2 + 1)) fun x => setColor x y c) (g, l) =
          some (g', l') ∧ WF g' ∧
        ∀ a b : Nat, cell g' a b =
          if (x1 ≤ (a : Int) ∧ (a : Int) < x2 + 1) ∧ (b : Int) ∈ ys then some c
          else cell g a b := by
  intro ys
  induction ys with
  | nil =>
    intro _ g l hwf
    exact ⟨g, l, rfl, hwf, by intro a b; simp⟩
  | cons y rest ih =>
    intro hmem g l hwf
    obtain ⟨hy0, hy32⟩ := hmem y (List.mem_cons_self y rest)
    obtain ⟨g2, l2, hrow, hwf2, hcell2⟩ :=
      rowFill_spec y c hy0 hy32 (intRange x1 (x2 + 1))
        (fun v hv => by
          have := mem_intRange.mp hv
          omega) g l hwf
    obtain ⟨g', l', hloop, hwf', hcell⟩ :=
      ih (fun v hv => hmem v (List.mem_cons_of_mem y hv)) g2 l2 hwf2
    refine ⟨g', l', ?_, hwf', ?_⟩
    · show (forLoop (intRange x1 (x2 + 1)) (fun x => setColor x y c) (g, l)).bind _ = _
      rw [hrow]
      simpa using hloop
    · intro a b
      rw [hcell a b]
      by_cases hrest : ((x1 ≤ (a : Int) ∧ (a : Int) < x2 + 1) ∧ (b : Int) ∈ rest)
      · rw [if_pos hrest, if_pos ⟨hrest.1, List.mem_cons_of_mem y hrest.2⟩]
      · rw [if_neg hrest, hcell2 a b]
        by_cases hhit : ((a : Int) ∈ intRange x1 (x2 + 1) ∧ b = y.toNat)
        · obtain ⟨hh1, hh2⟩ := hhit
          have hr := mem_intRange.mp hh1
          rw [if_pos ⟨hh1, hh2⟩,
            if_pos ⟨⟨hr.1, hr.2⟩, List.mem_cons.mpr (Or.inl (by omega))⟩]
        · rw [if_neg hhit, if_neg ?_]
          rintro ⟨hax, hby⟩
          rcases List.mem_cons.mp hby with hby' | hby'
          · exact hhit ⟨mem_intRange.mpr hax, by omega⟩
          · exact hrest ⟨hax, hby'⟩

/-- C9 counterexample: makeRect called with the unordered corners (2,2) and
(0,0) draws nothing at all — pixel (1,1), inside the rectangle the two
corners span, keeps its old color — because range(2, 1) is empty. -/
theorem c9_unordered_corners_draw_nothing :
    makeRect 2 2 0 0 (9, 9, 9) (demoGrid, []) = some (demoGrid, []) ∧
    cell demoGrid 1 1 = some (5, 5, 5) := ⟨rfl, rfl⟩

/-- C9 (amended): makeRect iterates y from y1 to y2 and x from x1 to x2 and
setColors each visited pixel: with corners inside the grid it paints exactly
the pixels with x1 ≤ x ≤ x2 and y1 ≤ y ≤ y2 and leaves every other pixel
unchanged, so for ordered corners that is the full inclusive rectangle,
while reversed corners give an empty range and nothing is drawn; corners are
not validated, and an out-of-range corner makes the underlying setColor
write fail (IndexError) as the concrete clause shows. -/
theorem c9_makeRect_spec (x1 y1 x2 y2 : Int) (c : Color) (g : Grid) (l : List Ev)
    (hwf : WF g) :
    (0 ≤ x1 → x2 < 64 → 0 ≤ y1 → y2 < 32 →
      ∃ g' l', makeRect x1 y1 x2 y2 c (g, l) = some (g', l') ∧
        ∀ a b : Nat, cell g' a b =
          if x1 ≤ (a : Int) ∧ (a : Int) ≤ x2 ∧ y1 ≤ (b : Int) ∧ (b : Int) ≤ y2 then some c
          else cell g a b) ∧
    (x1 > x2 ∨ y1 > y2 → makeRect x1 y1 x2 y2 c (g, l) = some (g, l)) ∧
    makeRect 60 0 64 0 (9, 9, 9) (blankGrid, []) = none := by
  refine ⟨?_, ?_, by rfl⟩
  · intro hx1 hx2 hy1 hy2
    obtain ⟨g', l', hloop, hwf', hcell⟩ :=
      rectFill_spec x1 x2 c hx1 hx2 (intRange y1 (y2 + 1))
        (fun v hv => by
          have := mem_intRange.mp hv
          omega) g l hwf
    refine ⟨g', l', hloop, ?_⟩
    intro a b
    rw [hcell a b]
    by_cases hin : x1 ≤ (a : Int) ∧ (a : Int) ≤ x2 ∧ y1 ≤ (b : Int) ∧ (b : Int) ≤ y2
    · rw [if_pos ⟨⟨hin.1, by omega⟩, mem_intRange.mpr (by omega)⟩, if_pos hin]
    · rw [if_neg ?_, if_neg hin]
      rintro ⟨⟨ha1, ha2⟩, hb⟩
      have := mem_intRange.mp hb
      exact hin ⟨ha1, by omega, by omega, by omega⟩
  · intro huo
    unfold makeRect
    rcases huo with huo | huo
    · have hempty : intRange x1 (x2 + 1) = [] := by
        unfold intRange
        have : (x2 + 1 - x1).toNat = 0 := by omega
        rw [this]
        rfl
      rw [hempty]
      generalize intRange y1 (y2 + 1) = ys
      induction ys with
      | nil => rfl
      | cons y rest ih =>
        show (forLoop [] (fun x => setColor x y c) (g, l)).bind
            (forLoop rest fun y => forLoop [] fun x => setColor x y c) = some (g, l)
        simpa using ih
    · have hempty : intRange y1 (y2 + 1) = [] := by
        unfold intRange
        have : (y2 + 1 - y1).toNat = 0 := by omega
        rw [this]
        rfl
      rw [hempty]
      rfl

/-- C9 witness: the in-bounds ordered clause of the makeRect theorem at the
concrete rectangle (0,0)-(1,1) on the blank grid. -/
theorem c9_makeRect_spec_witness :
    ∃ g' l', makeRect 0 0 1 1 (9, 9, 9) (blankGrid, []) = some (g', l') ∧
      ∀ a b : Nat, cell g' a b =
        if 0 ≤ (a : Int) ∧ (a : Int) ≤ 1 ∧ 0 ≤ (b : Int) ∧ (b : Int) ≤ 1 then some (9, 9, 9)
        else cell blankGrid a b :=
  (c9_makeRect_spec 0 0 1 1 (9, 9, 9) blankGrid [] (by constructor <;> decide)).1
    (by decide) (by decide) (by decide) (by decide)

/-! ### Claim C10: negative-index wrap-around and IndexError -/

theorem pyIdx_wrap {n : Nat} {i : Int} (h0 : -(n : Int) ≤ i) (h : i < 0) :
    pyIdx n i = some (i + n).toNat := by
  unfold pyIdx
  rw [if_neg (by omega), if_pos ⟨h0, h⟩]

theorem pyIdx_oob {n : Nat} {i : Int} (h : (n : Int) ≤ i) : pyIdx n i = none := by
  unfold pyIdx
  rw [if_neg (by omega), if_neg (by omega)]

/-- Within Python's accepted index window, display[y][x] resolves to the
wrapped cell. -/
theorem gridGet_wrap {g : Grid} {x y : Int} (hwf : WF g)
    (hx : -64 ≤ x) (hx2 : x < 64) (hy : -32 ≤ y) (hy2 : y < 32) :
    gridGet g x y = cell g (wrapX x) (wrapY y) := by
  obtain ⟨hlen, hrows⟩ := hwf
  unfold gridGet pyGet cell
  have hpy : pyIdx g.length y = some (wrapY y) := by
    rw [hlen]
    unfold wrapY
    by_cases hneg : y < 0
    · rw [if_pos hneg]
      exact pyIdx_wrap (by omega) hneg
    · rw [if_neg hneg]
      exact pyIdx_nonneg (by omega) (by omega)
  rw [hpy]
  simp only [Option.some_bind]
  cases hrow : g[wrapY y]? with
  | none => rfl
  | some row =>
    simp only [Option.some_bind]
    have hrl := hrows row (List.getElem?_mem hrow)
    have hpx : pyIdx row.length x = some (wrapX x) := by
      rw [hrl]
      unfold wrapX
      by_cases hneg : x < 0
      · rw [if_pos hneg]
        exact pyIdx_wrap (by omega) hneg
      · rw [if_neg hneg]
        exact pyIdx_nonneg (by omega) (by omega)
    rw [hpx]
    rfl

/-- In-window cells of a well-formed grid exist. -/
theorem cell_isSome {g : Grid} {a b : Nat} (hwf : WF g) (ha : a < 64) (hb : b < 32) :
    ∃ cv, cell g a b = some cv := by
  obtain ⟨hlen, hrows⟩ := hwf
  unfold cell
  have hblt : b < g.length := by omega
  obtain ⟨row, hrow⟩ : ∃ row, g[b]? = some row := ⟨g[b], List.getElem?_eq_getElem hblt⟩
  rw [hrow]
  simp only [Option.some_bind]
  have hrl := hrows row (List.getElem?_mem hrow)
  have halt : a < row.length := by omega
  exact ⟨row[a], List.getElem?_eq_getElem halt⟩

/-- Cell-level characterisation of a write anywhere inside Python's accepted
index window. -/
theorem cell_gridSet_wrap {g g' : Grid} {x y : Int} {c : Color} (hwf : WF g)
    (hx : -64 ≤ x) (hx2 : x < 64) (hy : -32 ≤ y) (hy2 : y < 32)
    (h : gridSet g x y c = some g') :
    ∀ a b : Nat, cell g' a b =
      if a = wrapX x ∧ b = wrapY y then some c else cell g a b := by
  obtain ⟨j, row, k, hj, hrow, hk, rfl⟩ := gridSet_decomp h
  obtain ⟨hlen, hrows⟩ := hwf
  have hj' : j = wrapY y := by
    have hpy : pyIdx g.length y = some (wrapY y) := by
      rw [hlen]
      unfold wrapY
      by_cases hneg : y < 0
      · rw [if_pos hneg]
        exact pyIdx_wrap (by omega) hneg
      · rw [if_neg hneg]
        exact pyIdx_nonneg (by omega) (by omega)
    rw [hpy] at hj
    exact (Option.some.injEq .. ▸ hj).symm
  have hrl := hrows row (List.getElem?_mem hrow)
  have hk' : k = wrapX x := by
    have hpx : pyIdx row.length x = some (wrapX x) := by
      rw [hrl]
      unfold wrapX
      by_cases hneg : x < 0
      · rw [if_pos hneg]
        exact pyIdx_wrap (by omega) hneg
      · rw [if_neg hneg]
        exact pyIdx_nonneg (by omega) (by omega)
    rw [hpx] at hk
    exact (Option.some.injEq .. ▸ hk).symm
  subst hj'
  subst hk'
  intro a b
  have hjlt : wrapY y < g.length := pyIdx_lt hj
  have hklt : wrapX x < row.length := pyIdx_lt hk
  unfold cell
  by_cases hb : b = wrapY y
  · subst hb
    rw [List.getElem?_set_self hjlt, hrow]
    simp only [Option.some_bind]
    by_cases ha : a = wrapX x
    · subst ha
      rw [List.getElem?_set_self hklt]
      simp
    · rw [List.getElem?_set_ne (by omega), if_neg (by tauto)]
  · rw [List.getElem?_set_ne (by omega), if_neg (by tauto)]

/-- Row index at or past 32, or column index at or past 64, raises
IndexError on read. -/
theorem gridGet_oob {g : Grid} {x y : Int} (hwf : WF g) (h : 64 ≤ x ∨ 32 ≤ y) :
    gridGet g x y = none := by
  obtain ⟨hlen, hrows⟩ := hwf
  unfold gridGet pyGet
  by_cases hy : 32 ≤ y
  · rw [hlen, pyIdx_oob (by omega)]
    rfl
  · rcases h with hx | hy'
    · cases hpy : pyIdx g.length y with
      | none => rfl
      | some j =>
        simp only [Option.some_bind]
        cases hrow : g[j]? with
        | none => rfl
        | some row =>
          simp only [Option.some_bind]
          rw [hrows row (List.getElem?_mem hrow), pyIdx_oob (by omega)]
          rfl
    · omega

/-- Row or column index at or past the size raises IndexError on write. -/
theorem gridSet_oob {g : Grid} {x y : Int} {c : Color} (hwf : WF g)
    (h : 64 ≤ x ∨ 32 ≤ y) : gridSet g x y c = none := by
  obtain ⟨hlen, hrows⟩ := hwf
  unfold gridSet pySet
  by_cases hy : 32 ≤ y
  · rw [hlen, pyIdx_oob (by omega)]
    rfl
  · rcases h with hx | hy'
    · cases hpy : pyIdx g.length y with
      | none => rfl
      | some j =>
        simp only [Option.bind_eq_bind, Option.some_bind]
        cases hrow : g[j]? with
        | none => rfl
        | some row =>
          simp only [Option.some_bind]
          rw [hrows row (List.getElem?_mem hrow), pyIdx_oob (by omega)]
          rfl
    · omega

/-- C10 (confirmed): the per-pixel accessors do no bounds checking of their
own.  For any coordinates inside Python's accepted index window — including
every negative x in [-64,-1] and negative y in [-32,-1] — reads and writes
silently resolve to the wrapped cell at column 64+x / row 32+y (so the pixel
assignment statement f -> (-1 -1) = (9 9 9) mutates the real pixel (63,31),
as the concrete clause shows), while any x ≥ 64 or y ≥ 32 raises IndexError
(none) on both read and write paths. -/
theorem c10_accessors_wrap_and_fail (g : Grid) (l : List Ev) (x y : Int) (c : Color)
    (v : Int) (hwf : WF g) :
    ((-64 ≤ x ∧ x < 64 ∧ -32 ≤ y ∧ y < 32) →
      getPixel g x y = cell g (wrapX x) (wrapY y) ∧
      getRed g x y = (cell g (wrapX x) (wrapY y)).map (fun cl => cl.1) ∧
      getGreen g x y = (cell g (wrapX x) (wrapY y)).map (fun cl => cl.2.1) ∧
      getBlue g x y = (cell g (wrapX x) (wrapY y)).map (fun cl => cl.2.2) ∧
      ∃ g', gridSet g x y c = some g' ∧
        setColor x y c (g, l) = some (g', l ++ [(x, y, c)]) ∧
        cell g' (wrapX x) (wrapY y) = some c ∧
        ∀ a b : Nat, ¬(a = wrapX x ∧ b = wrapY y) → cell g' a b = cell g a b) ∧
    ((64 ≤ x ∨ 32 ≤ y) →
      getPixel g x y = none ∧ getRed g x y = none ∧
      setColor x y c (g, l) = none ∧ setRed x y v (g, l) = none) ∧
    (execStmt 5 negPixelStmt demoState).map
        (fun st => st.frames[0]?.bind fun fr => cell fr 63 31) = some (some (9, 9, 9)) := by
  refine ⟨?_, ?_, by rfl⟩
  · rintro ⟨hx, hx2, hy, hy2⟩
    have hget := gridGet_wrap hwf hx hx2 hy hy2
    have hwx : wrapX x < 64 := by unfold wrapX; split <;> omega
    have hwy : wrapY y < 32 := by unfold wrapY; split <;> omega
    obtain ⟨cv, hcv⟩ := cell_isSome hwf hwx hwy
    obtain ⟨g', hset⟩ := gridSet_of_gridGet c (by rw [hget, hcv])
    refine ⟨hget, by unfold getRed; rw [hget], by unfold getGreen; rw [hget],
      by unfold getBlue; rw [hget], g', hset, ?_, ?_, ?_⟩
    · unfold setColor
      rw [hset]
      rfl
    · have := cell_gridSet_wrap hwf hx hx2 hy hy2 hset (wrapX x) (wrapY y)
      rw [this, if_pos ⟨rfl, rfl⟩]
    · intro a b hne
      have := cell_gridSet_wrap hwf hx hx2 hy hy2 hset a b
      rw [this, if_neg hne]
  · intro h
    have hget := gridGet_oob hwf h
    have hset := gridSet_oob (c := c) hwf h
    refine ⟨hget, by unfold getRed; rw [hget]; rfl, ?_, ?_⟩
    · unfold setColor
      rw [hset]
      rfl
    · unfold setRed
      show (gridGet g x y).bind _ = none
      rw [hget]
      rfl

/-- C10 witness: the in-window clause applied at the concrete coordinates
(-1,-1) on demoGrid, and the out-of-window clause at (64, 0) — hypotheses
discharged by decide. -/
theorem c10_accessors_witness :
    getPixel demoGrid (-1) (-1) = cell demoGrid (wrapX (-1)) (wrapY (-1)) ∧
    getPixel demoGrid 64 0 = none := by
  have hwf : WF demoGrid := by
    constructor
    · rfl
    · decide
  exact ⟨((c10_accessors_wrap_and_fail demoGrid [] (-1) (-1) (1, 1, 1) 0 hwf).1
      (by norm_num)).1,
    ((c10_accessors_wrap_and_fail demoGrid [] 64 0 (1, 1, 1) 0 hwf).2.1
      (by norm_num)).1⟩

/-! ### Claim C6: the RGB565 packing -/

theorem catMap_length {α β : Type} (f : α → List β) (k : Nat) (l : List α)
    (hf : ∀ a ∈ l, (f a).length = k) : (catMap f l).length = k * l.length := by
  induction l with
  | nil => simp [catMap]
  | cons a rest ih =>
    simp only [catMap, List.length_append, List.length_cons]
    rw [hf a (List.mem_cons_self a rest), ih (fun v hv => hf v (List.mem_cons_of_mem a hv))]
    ring

theorem catMap_getElem {α β : Type} (f : α → List β) (k : Nat) :
    ∀ (l : List α), (∀ a ∈ l, (f a).length = k) → ∀ (i j : Nat), j < k →
      (catMap f l)[k * i + j]? = l[i]?.bind fun a => (f a)[j]? := by
  intro l
  induction l with
  | nil => intro _ i j _; simp [catMap]
  | cons a rest ih =>
    intro hf i j hj
    have hfa := hf a (List.mem_cons_self a rest)
    cases i with
    | zero =>
      simp only [catMap, Nat.mul_zero, Nat.zero_add]
      rw [List.getElem?_append_left (by omega)]
      simp
    | succ i' =>
      have hidx : k * (i' + 1) + j = k + (k * i' + j) := by ring
      simp only [catMap]
      rw [hidx, List.getElem?_append_right (by omega)]
      rw [hfa]
      simp only [Nat.add_sub_cancel_left]
      rw [ih (fun v hv => hf v (List.mem_cons_of_mem a hv)) i' j hj]
      simp

theorem nat_and_31 (n : Nat) : n &&& 31 = n % 32 := by
  have h := Nat.and_pow_two_sub_one_eq_mod n 5
  norm_num at h
  exact h

theorem nat_and_63 (n : Nat) : n &&& 63 = n % 64 := by
  have h := Nat.and_pow_two_sub_one_eq_mod n 6
  norm_num at h
  exact h

theorem nat_and_255 (n : Nat) : n &&& 255 = n % 256 := by
  have h := Nat.and_pow_two_sub_one_eq_mod n 8
  norm_num at h
  exact h

/-- The packed value of in-range components, arithmetically. -/
theorem pack565_eq {r gc b : Nat} (hr : r < 32) (hg : gc < 64) (hb : b < 32) :
    pack565 (r : Int) (gc : Int) (b : Int) = r * 2048 + gc * 32 + b := by
  have hland : ∀ (m k : Nat), Int.land (m : Int) (k : Int) = (m &&& k : Nat) := by
    intro m k
    rfl
  unfold pack565
  rw [show ((31 : Int)) = ((31 : Nat) : Int) from rfl,
    show ((63 : Int)) = ((63 : Nat) : Int) from rfl,
    hland r 31, hland gc 63, hland b 31]
  simp only [Int.toNat_natCast]
  rw [nat_and_31 r, nat_and_63 gc, nat_and_31 b,
    Nat.mod_eq_of_lt hr, Nat.mod_eq_of_lt hg, Nat.mod_eq_of_lt hb]
  rw [Nat.or_assoc]
  have hinner : (gc <<< 5) ||| b = 2 ^ 5 * gc + b := by
    rw [Nat.shiftLeft_eq, Nat.mul_comm]
    exact (Nat.mul_add_lt_is_or (by omega) gc).symm
  rw [hinner]
  have houter : (r <<< 11) ||| (2 ^ 5 * gc + b) = 2 ^ 11 * r + (2 ^ 5 * gc + b) := by
    rw [Nat.shiftLeft_eq, Nat.mul_comm]
    exact (Nat.mul_add_lt_is_or (by omega) r).symm
  rw [houter]
  ring

/-- C6 (confirmed): for every in-range pixel at grid position (x, y), the
RGB565 encoder stores at byte offset 2*(64*y+x) the two little-endian bytes
value & 0xFF and (value >> 8) & 0xFF of
value = (r & 0x1F) << 11 | (g & 0x3F) << 5 | (b & 0x1F), and the spec's
inverse mask-and-shift decoder recovers exactly (r, g, b) from those two
bytes. -/
theorem c6_rgb565_layout_roundtrip (g : Grid) (x y : Nat) (r gc b : Int)
    (hwf : WF g) (hx : x < 64) (hy : y < 32) (hpix : cell g x y = some (r, gc, b))
    (hr0 : 0 ≤ r) (hr : r < 32) (hg0 : 0 ≤ gc) (hg : gc < 64)
    (hb0 : 0 ≤ b) (hb : b < 32) :
    ∃ bs, frame_to_rgb565_bytes g = some bs ∧
      bs[2 * (64 * y + x)]? = some (pack565 r gc b &&& 255) ∧
      bs[2 * (64 * y + x) + 1]? = some ((pack565 r gc b >>> 8) &&& 255) ∧
      decode565 (pack565 r gc b &&& 255) ((pack565 r gc b >>> 8) &&& 255) =
        (r.toNat, gc.toNat, b.toNat) := by
  obtain ⟨hlen, hrows⟩ := hwf
  have hpb : ∀ (cv : Color), (pixelBytes cv).length = 2 := fun _ => rfl
  have hrowlen : ∀ row ∈ g, (catMap pixelBytes row).length = 128 := by
    intro row hrow
    rw [catMap_length pixelBytes 2 row (fun cv _ => hpb cv), hrows row hrow]
  obtain ⟨row, hrowy, hxv⟩ : ∃ row, g[y]? = some row ∧ row[x]? = some (r, gc, b) := by
    unfold cell at hpix
    cases hry : g[y]? with
    | none => rw [hry] at hpix; cases hpix
    | some row =>
      rw [hry] at hpix
      exact ⟨row, rfl, hpix⟩
  have houter : ∀ j : Nat, j < 128 →
      (catMap (fun row => catMap pixelBytes row) g)[128 * y + j]? =
        (catMap pixelBytes row)[j]? := by
    intro j hj
    rw [catMap_getElem (fun row => catMap pixelBytes row) 128 g hrowlen y j hj, hrowy]
    rfl
  have hinner0 : (catMap pixelBytes row)[2 * x]? =
      some (pack565 r gc b &&& 255) := by
    have := catMap_getElem pixelBytes 2 row (fun cv _ => hpb cv) x 0 (by omega)
    rw [Nat.add_zero] at this
    rw [this, hxv]
    rfl
  have hinner1 : (catMap pixelBytes row)[2 * x + 1]? =
      some ((pack565 r gc b >>> 8) &&& 255) := by
    rw [catMap_getElem pixelBytes 2 row (fun cv _ => hpb cv) x 1 (by omega), hxv]
    rfl
  refine ⟨catMap (fun row => catMap pixelBytes row) g, ?_, ?_, ?_, ?_⟩
  · unfold frame_to_rgb565_bytes
    rw [if_pos ⟨hlen, hrows⟩]
  · have hidx : 2 * (64 * y + x) = 128 * y + 2 * x := by ring
    rw [hidx, houter (2 * x) (by omega), hinner0]
  · have hidx : 2 * (64 * y + x) + 1 = 128 * y + (2 * x + 1) := by ring
    rw [hidx, houter (2 * x + 1) (by omega), hinner1]
  · have hrn : r = ((r.toNat : Nat) : Int) := by omega
    have hgn : gc = ((gc.toNat : Nat) : Int) := by omega
    have hbn : b = ((b.toNat : Nat) : Int) := by omega
    have hv : pack565 r gc b = r.toNat * 2048 + gc.toNat * 32 + b.toNat := by
      rw [hrn, hgn, hbn]
      exact pack565_eq (by omega) (by omega) (by omega)
    set rn := r.toNat with hrdef
    set gn := gc.toNat with hgdef
    set bn := b.toNat with hbdef
    have hrn' : rn < 32 := by omega
    have hgn' : gn < 64 := by omega
    have hbn' : bn < 32 := by omega
    set v := pack565 r gc b with hvdef
    have hv65536 : v < 65536 := by omega
    have hlo : v &&& 255 = v % 256 := nat_and_255 v
    have hhi : (v >>> 8) &&& 255 = v / 256 := by
      rw [Nat.shiftRight_eq_div_pow, nat_and_255]
      have h3 : (2 : Nat) ^ 8 = 256 := by norm_num
      rw [h3]
      omega
    unfold decode565
    rw [hlo, hhi]
    have hrecomb : v % 256 ||| ((v / 256) <<< 8) = v := by
      have h1 : (v / 256) <<< 8 = 2 ^ 8 * (v / 256) := by
        rw [Nat.shiftLeft_eq]
        exact Nat.mul_comm _ _
      have h2 : v % 256 < 2 ^ 8 := by
        have := Nat.mod_lt v (y := 256) (by norm_num)
        norm_num
        omega
      rw [h1, Nat.or_comm, ← Nat.mul_add_lt_is_or h2 (v / 256)]
      have h3 : (2 : Nat) ^ 8 = 256 := by norm_num
      rw [h3]
      omega
    rw [hrecomb]
    show (v >>> 11 &&& 31, v >>> 5 &&& 63, v &&& 31) = (rn, gn, bn)
    rw [Nat.shiftRight_eq_div_pow, Nat.shiftRight_eq_div_pow, nat_and_31, nat_and_63,
      nat_and_31]
    have h11 : (2 : Nat) ^ 11 = 2048 := by norm_num
    have h5 : (2 : Nat) ^ 5 = 32 := by norm_num
    rw [h11, h5]
    simp only [Prod.mk.injEq]
    refine ⟨?_, ?_, ?_⟩ <;> omega

/-- C6 witness: the layout/round-trip theorem at pixel (1,0) of demoGrid,
all hypotheses discharged on the concrete grid. -/
theorem c6_rgb565_witness :
    ∃ bs, frame_to_rgb565_bytes demoGrid = some bs ∧
      bs[2 * (64 * 0 + 1)]? = some (pack565 5 5 5 &&& 255) ∧
      bs[2 * (64 * 0 + 1) + 1]? = some ((pack565 5 5 5 >>> 8) &&& 255) ∧
      decode565 (pack565 5 5 5 &&& 255) ((pack565 5 5 5 >>> 8) &&& 255) =
        ((5 : Int).toNat, (5 : Int).toNat, (5 : Int).toNat) :=
  c6_rgb565_layout_roundtrip demoGrid 1 0 5 5 5 ⟨rfl, by decide⟩ (by decide) (by decide)
    (by rfl) (by decide) (by decide) (by decide) (by decide) (by decide) (by decide)

/-! ### Claim C5: the reserved keyword set -/

/-- C5 counterexample: the claimed keyword set contains Send, but the
lexer's KEYWORDS set does not, and lexing the word Send produces an IDENT
token rather than a KW token. -/
theorem c5_send_lexes_as_ident :
    ("Send" ∈ specKeywords ∧ "Send" ∉ KEYWORDS) ∧
    lex_source "Send" =
      some [⟨TokTy.IDENT, TokVal.s "Send", 1, 1⟩, ⟨TokTy.EOF, TokVal.s "EOF", 1, 5⟩] :=
  ⟨by decide, by decide⟩

/-- C5 (amended): the lexer's reserved keyword set is exactly the claimed
set minus Send (the 22 words Frame, int, color, pixel, bool, string, list,
None, true, false, none, Do, Publish, return, While, For, in, if, and, or,
xor, not); each of them lexes as a KW token, while Send lexes as an IDENT
token. -/
theorem c5_keyword_set :
    KEYWORDS = specKeywords.erase "Send" ∧
    (KEYWORDS.all fun kw =>
      lex_source kw = some [⟨TokTy.KW, TokVal.s kw, 1, 1⟩,
        ⟨TokTy.EOF, TokVal.s "EOF", 1, kw.length + 1⟩]) = true ∧
    (lex_source "Send").map (fun toks => toks.map Token.ty) =
      some [TokTy.IDENT, TokTy.EOF] :=
  ⟨by decide, by decide, by decide⟩

/-! ### Interpreter bookkeeping invariants (for claims C2, C3, C8) -/

theorem constMap_getLast {α β : Type} (fid : β) :
    ∀ (l : List α), l ≠ [] → (l.map fun _ => fid).getLast? = some fid
  | [_], _ => rfl
  | _ :: b :: t, _ => by
    rw [List.map_cons, List.map_cons, List.getLast?_cons_cons]
    exact constMap_getLast fid (b :: t) (by simp)

theorem trackAfter_append (prev : Option Nat) (d1 d2 : List Nat) :
    trackAfter (trackAfter prev d1) d2 = trackAfter prev (d1 ++ d2) := by
  unfold trackAfter
  rw [List.getLast?_append]
  cases h2 : d2.getLast? with
  | none => simp
  | some f => simp

theorem evalMono_refl (st : IState) : EvalMono st st :=
  ⟨rfl, rfl, rfl, [], by simp, rfl⟩

theorem evalMono_trans {s1 s2 s3 : IState} (h12 : EvalMono s1 s2) (h23 : EvalMono s2 s3) :
    EvalMono s1 s3 := by
  obtain ⟨hc1, hi1, hs1, d1, ho1, hl1⟩ := h12
  obtain ⟨hc2, hi2, hs2, d2, ho2, hl2⟩ := h23
  refine ⟨by rw [hc2, hc1], by rw [hi2, hi1], by rw [hs2, hs1], d1 ++ d2, ?_, ?_⟩
  · rw [ho2, ho1, List.append_assoc]
  · rw [hl2, hl1, trackAfter_append]

/-- Changing only frames or scopes preserves the bookkeeping. -/
theorem evalMono_of_fields {st st' : IState}
    (hc : st'.handlerCalls = st.handlerCalls)
    (hi : st'.handlerInstalled = st.handlerInstalled)
    (hs : st'.steps = st.steps)
    (ho : st'.onChangeLog = st.onChangeLog)
    (hl : st'.lastModified = st.lastModified) : EvalMono st st' :=
  ⟨hc, hi, hs, [], by simpa using ho, by simpa [trackAfter] using hl⟩

theorem runFrameOp_mono {fid : Nat} {op : EngineSt → Option EngineSt} {st st' : IState}
    (h : runFrameOp fid op st = some st') : EvalMono st st' := by
  unfold runFrameOp at h
  obtain ⟨g, hg, h⟩ := Option.bind_eq_some.mp h
  obtain ⟨p, hop, h⟩ := Option.bind_eq_some.mp h
  obtain ⟨g', l⟩ := p
  simp only [Option.pure_def, Option.some.injEq] at h
  subst h
  refine ⟨rfl, rfl, rfl, l.map fun _ => fid, rfl, ?_⟩
  by_cases hl : l.isEmpty
  · have hnil : l = [] := List.isEmpty_iff.mp hl
    subst hnil
    simp [trackAfter]
  · have hne : l ≠ [] := by simpa [List.isEmpty_iff] using hl
    simp only [if_neg hl]
    unfold trackAfter
    rw [constMap_getLast fid l hne]

theorem newFrame_mono (st : IState) : EvalMono st (newFrame st).2 :=
  evalMono_of_fields rfl rfl rfl rfl rfl

theorem defaultValue_mono {ty : String} {st : IState} {v : Value} {st' : IState}
    (h : defaultValue ty st = some (v, st')) : EvalMono st st' := by
  unfold defaultValue at h
  split at h
  · simp only [Option.some.injEq] at h
    have h2 : st' = (newFrame st).2 := (congrArg Prod.snd h).symm
    rw [h2]
    exact newFrame_mono st
  · obtain ⟨w, hw, h⟩ := Option.map_eq_some.mp h
    have h2 : st' = st := (congrArg Prod.snd h).symm
    rw [h2]
    exact evalMono_refl st

theorem applyBuiltin_mono {b : BName} {args : List Value} {st : IState} {v : Value}
    {st' : IState} (h : applyBuiltin b args st = some (v, st')) : EvalMono st st' := by
  cases b with
  | bFrame =>
    simp only [applyBuiltin] at h
    split at h
    · simp only [Option.some.injEq] at h
      have h2 : st' = (newFrame st).2 := (congrArg Prod.snd h).symm
      rw [h2]
      exact newFrame_mono st
    · cases h
  | bSetColor =>
    rcases args with _ | ⟨ptr, _ | ⟨color, _ | ⟨a3, rest⟩⟩⟩ <;> try cases h
    cases ptr <;> simp only [applyBuiltin] at h <;> try cases h
    next fid x y =>
      obtain ⟨c, hc, h⟩ := Option.bind_eq_some.mp h
      obtain ⟨xi, hxi, h⟩ := Option.bind_eq_some.mp h
      obtain ⟨yi, hyi, h⟩ := Option.bind_eq_some.mp h
      obtain ⟨st2, hop, h⟩ := Option.bind_eq_some.mp h
      simp only [Option.pure_def, Option.some.injEq, Prod.mk.injEq] at h
      obtain ⟨rfl, rfl⟩ := h
      exact runFrameOp_mono hop
  | bSetRed =>
    rcases args with _ | ⟨ptr, _ | ⟨w, _ | ⟨a3, rest⟩⟩⟩ <;> try cases h
    cases ptr <;> simp only [applyBuiltin] at h <;> try cases h
    next fid x y =>
      obtain ⟨vi, hvi, h⟩ := Option.bind_eq_some.mp h
      obtain ⟨xi, hxi, h⟩ := Option.bind_eq_some.mp h
      obtain ⟨yi, hyi, h⟩ := Option.bind_eq_some.mp h
      obtain ⟨st2, hop, h⟩ := Option.bind_eq_some.mp h
      simp only [Option.pure_def, Option.some.injEq, Prod.mk.injEq] at h
      obtain ⟨rfl, rfl⟩ := h
      exact runFrameOp_mono hop
  | bSetGreen =>
    rcases args with _ | ⟨ptr, _ | ⟨w, _ | ⟨a3, rest⟩⟩⟩ <;> try cases h
    cases ptr <;> simp only [applyBuiltin] at h <;> try cases h
    next fid x y =>
      obtain ⟨vi, hvi, h⟩ := Option.bind_eq_some.mp h
      obtain ⟨xi, hxi, h⟩ := Option.bind_eq_some.mp h
      obtain ⟨yi, hyi, h⟩ := Option.bind_eq_some.mp h
      obtain ⟨st2, hop, h⟩ := Option.bind_eq_some.mp h
      simp only [Option.pure_def, Option.some.injEq, Prod.mk.injEq] at h
      obtain ⟨rfl, rfl⟩ := h
      exact runFrameOp_mono hop
  | bSetBlue =>
    rcases args with _ | ⟨ptr, _ | ⟨w, _ | ⟨a3, rest⟩⟩⟩ <;> try cases h
    cases ptr <;> simp only [applyBuiltin] at h <;> try cases h
    next fid x y =>
      obtain ⟨vi, hvi, h⟩ := Option.bind_eq_some.mp h
      obtain ⟨xi, hxi, h⟩ := Option.bind_eq_some.mp h
      obtain ⟨yi, hyi, h⟩ := Option.bind_eq_some.mp h
      obtain ⟨st2, hop, h⟩ := Option.bind_eq_some.mp h
      simp only [Option.pure_def, Option.some.injEq, Prod.mk.injEq] at h
      obtain ⟨rfl, rfl⟩ := h
      exact runFrameOp_mono hop
  | bGetPixel =>
    rcases args with _ | ⟨ptr, _ | ⟨a2, rest⟩⟩ <;> try cases h
    cases ptr <;> simp only [applyBuiltin] at h <;> try cases h
    next fid x y =>
      obtain ⟨xi, hxi, h⟩ := Option.bind_eq_some.mp h
      obtain ⟨yi, hyi, h⟩ := Option.bind_eq_some.mp h
      obtain ⟨g, hg, h⟩ := Option.bind_eq_some.mp h
      obtain ⟨cv, hcv, h⟩ := Option.bind_eq_some.mp h
      obtain ⟨r, gc, bb⟩ := cv
      simp only [Option.pure_def, Option.some.injEq, Prod.mk.injEq] at h
      obtain ⟨rfl, rfl⟩ := h
      exact evalMono_refl st
  | bGetRed =>
    rcases args with _ | ⟨ptr, _ | ⟨a2, rest⟩⟩ <;> try cases h
    cases ptr <;> simp only [applyBuiltin] at h <;> try cases h
    next fid x y =>
      obtain ⟨xi, hxi, h⟩ := Option.bind_eq_some.mp h
      obtain ⟨yi, hyi, h⟩ := Option.bind_eq_some.mp h
      obtain ⟨g, hg, h⟩ := Option.bind_eq_some.mp h
      obtain ⟨cv, hcv, h⟩ := Option.bind_eq_some.mp h
      simp only [Option.pure_def, Option.some.injEq, Prod.mk.injEq] at h
      obtain ⟨rfl, rfl⟩ := h
      exact evalMono_refl st
  | bGetGreen =>
    rcases args with _ | ⟨ptr, _ | ⟨a2, rest⟩⟩ <;> try cases h
    cases ptr <;> simp only [applyBuiltin] at h <;> try cases h
    next fid x y =>
      obtain ⟨xi, hxi, h⟩ := Option.bind_eq_some.mp h
      obtain ⟨yi, hyi, h⟩ := Option.bind_eq_some.mp h
      obtain ⟨g, hg, h⟩ := Option.bind_eq_some.mp h
      obtain ⟨cv, hcv, h⟩ := Option.bind_eq_some.mp h
      simp only [Option.pure_def, Option.some.injEq, Prod.mk.injEq] at h
      obtain ⟨rfl, rfl⟩ := h
      exact evalMono_refl st
  | bGetBlue =>
    rcases args with _ | ⟨ptr, _ | ⟨a2, rest⟩⟩ <;> try cases h
    cases ptr <;> simp only [applyBuiltin] at h <;> try cases h
    next fid x y =>
      obtain ⟨xi, hxi, h⟩ := Option.bind_eq_some.mp h
      obtain ⟨yi, hyi, h⟩ := Option.bind_eq_some.mp h
      obtain ⟨g, hg, h⟩ := Option.bind_eq_some.mp h
      obtain ⟨cv, hcv, h⟩ := Option.bind_eq_some.mp h
      simp only [Option.pure_def, Option.some.injEq, Prod.mk.injEq] at h
      obtain ⟨rfl, rfl⟩ := h
      exact evalMono_refl st
  | bMakeRect =>
    rcases args with _ | ⟨frame, _ | ⟨p1, _ | ⟨p2, _ | ⟨color, _ | rest⟩⟩⟩⟩ <;> try cases h
    cases frame <;> simp only [applyBuiltin] at h <;> try cases h
    next fid =>
      obtain ⟨q1, hq1, h⟩ := Option.bind_eq_some.mp h
      obtain ⟨x1, y1⟩ := q1
      obtain ⟨q2, hq2, h⟩ := Option.bind_eq_some.mp h
      obtain ⟨x2, y2⟩ := q2
      obtain ⟨c, hc, h⟩ := Option.bind_eq_some.mp h
      obtain ⟨st2, hop, h⟩ := Option.bind_eq_some.mp h
      simp only [Option.pure_def, Option.some.injEq, Prod.mk.injEq] at h
      obtain ⟨rfl, rfl⟩ := h
      exact runFrameOp_mono hop
  | bMakeLine =>
    rcases args with _ | ⟨frame, _ | ⟨p1, _ | ⟨p2, _ | ⟨color, _ | rest⟩⟩⟩⟩ <;> try cases h
    cases frame <;> simp only [applyBuiltin] at h <;> try cases h
    next fid =>
      obtain ⟨q1, hq1, h⟩ := Option.bind_eq_some.mp h
      obtain ⟨x1, y1⟩ := q1
      obtain ⟨q2, hq2, h⟩ := Option.bind_eq_some.mp h
      obtain ⟨x2, y2⟩ := q2
      obtain ⟨c, hc, h⟩ := Option.bind_eq_some.mp h
      obtain ⟨st2, hop, h⟩ := Option.bind_eq_some.mp h
      simp only [Option.pure_def, Option.some.injEq, Prod.mk.injEq] at h
      obtain ⟨rfl, rfl⟩ := h
      exact runFrameOp_mono hop
  | bFill =>
    rcases args with _ | ⟨frame, _ | ⟨sx, _ | ⟨sy, _ | ⟨color, _ | rest⟩⟩⟩⟩ <;> try cases h
    cases frame <;> try (simp only [applyBuiltin] at h; cases h)
    next fid =>
      cases sx <;> simp only [applyBuiltin] at h <;> try cases h
      next sxi =>
        cases sy <;> simp only [applyBuiltin] at h <;> try cases h
        next syi =>
          obtain ⟨c, hc, h⟩ := Option.bind_eq_some.mp h
          obtain ⟨st2, hop, h⟩ := Option.bind_eq_some.mp h
          simp only [Option.pure_def, Option.some.injEq, Prod.mk.injEq] at h
          obtain ⟨rfl, rfl⟩ := h
          exact runFrameOp_mono hop

theorem assignPixel_mono {p v : Value} {st st' : IState}
    (h : assignPixel p v st = some st') : EvalMono st st' := by
  unfold assignPixel at h
  split at h
  · split at h
    · obtain ⟨c, hc, h⟩ := Option.bind_eq_some.mp h
      obtain ⟨xi, hxi, h⟩ := Option.bind_eq_some.mp h
      obtain ⟨yi, hyi, h⟩ := Option.bind_eq_some.mp h
      exact runFrameOp_mono h
    · cases h
  · cases h

mutual

theorem evalExpr_mono : ∀ (e : Expr) (st : IState) (v : Value) (st' : IState),
    evalExpr e st = some (v, st') → EvalMono st st'
  | .lit w ln, st, v, st', h => by
    simp only [evalExpr, Option.some.injEq, Prod.mk.injEq] at h
    obtain ⟨rfl, rfl⟩ := h
    exact evalMono_refl _
  | .var name ln, st, v, st', h => by
    simp only [evalExpr] at h
    obtain ⟨w, hw, h⟩ := Option.map_eq_some.mp h
    have h2 : st' = st := (congrArg Prod.snd h).symm
    rw [h2]
    exact evalMono_refl _
  | .unary op e ln, st, v, st', h => by
    simp only [evalExpr] at h
    obtain ⟨p, hp, h⟩ := Option.bind_eq_some.mp h
    obtain ⟨v1, st1⟩ := p
    obtain ⟨r, hr, h⟩ := Option.bind_eq_some.mp h
    simp only [Option.pure_def, Option.some.injEq, Prod.mk.injEq] at h
    obtain ⟨rfl, rfl⟩ := h
    exact evalExpr_mono e st v1 _ hp
  | .binary op a b ln, st, v, st', h => by
    simp only [evalExpr] at h
    obtain ⟨p, hp, h⟩ := Option.bind_eq_some.mp h
    obtain ⟨l, st1⟩ := p
    obtain ⟨q, hq, h⟩ := Option.bind_eq_some.mp h
    obtain ⟨r, st2⟩ := q
    obtain ⟨w, hwv, h⟩ := Option.bind_eq_some.mp h
    simp only [Option.pure_def, Option.some.injEq, Prod.mk.injEq] at h
    obtain ⟨rfl, rfl⟩ := h
    exact evalMono_trans (evalExpr_mono a st l st1 hp) (evalExpr_mono b st1 r _ hq)
  | .index b i ln, st, v, st', h => by
    simp only [evalExpr] at h
    obtain ⟨p, hp, h⟩ := Option.bind_eq_some.mp h
    obtain ⟨bv, st1⟩ := p
    obtain ⟨q, hq, h⟩ := Option.bind_eq_some.mp h
    obtain ⟨iv, st2⟩ := q
    have hm := evalMono_trans (evalExpr_mono b st bv st1 hp) (evalExpr_mono i st1 iv st2 hq)
    split at h
    · obtain ⟨w, hw, h⟩ := Option.map_eq_some.mp h
      have h2 : st' = st2 := (congrArg Prod.snd h).symm
      rw [h2]
      exact hm
    · cases h
  | .call name args ln, st, v, st', h => by
    simp only [evalExpr] at h
    obtain ⟨p, hp, h⟩ := Option.bind_eq_some.mp h
    obtain ⟨vs, st1⟩ := p
    have hm := evalArgs_mono args st vs st1 hp
    split at h
    · exact evalMono_trans hm (applyBuiltin_mono h)
    · cases h
  | .colorLit a b c ln, st, v, st', h => by
    simp only [evalExpr] at h
    obtain ⟨p, hp, h⟩ := Option.bind_eq_some.mp h
    obtain ⟨rv, st1⟩ := p
    obtain ⟨q, hq, h⟩ := Option.bind_eq_some.mp h
    obtain ⟨gv, st2⟩ := q
    obtain ⟨w, hw, h⟩ := Option.bind_eq_some.mp h
    obtain ⟨bv, st3⟩ := w
    simp only [Option.pure_def, Option.some.injEq, Prod.mk.injEq] at h
    obtain ⟨rfl, rfl⟩ := h
    exact evalMono_trans (evalExpr_mono a st rv st1 hp)
      (evalMono_trans (evalExpr_mono b st1 gv st2 hq) (evalExpr_mono c st2 bv _ hw))
  | .pixelLit a b ln, st, v, st', h => by
    simp only [evalExpr] at h
    obtain ⟨p, hp, h⟩ := Option.bind_eq_some.mp h
    obtain ⟨xv, st1⟩ := p
    obtain ⟨q, hq, h⟩ := Option.bind_eq_some.mp h
    obtain ⟨yv, st2⟩ := q
    simp only [Option.pure_def, Option.some.injEq, Prod.mk.injEq] at h
    obtain ⟨rfl, rfl⟩ := h
    exact evalMono_trans (evalExpr_mono a st xv st1 hp) (evalExpr_mono b st1 yv _ hq)
  | .listLit items ln, st, v, st', h => by
    simp only [evalExpr] at h
    obtain ⟨p, hp, h⟩ := Option.bind_eq_some.mp h
    obtain ⟨vs, st1⟩ := p
    simp only [Option.pure_def, Option.some.injEq, Prod.mk.injEq] at h
    obtain ⟨rfl, rfl⟩ := h
    exact evalArgs_mono items st vs _ hp
  | .paren e ln, st, v, st', h => by
    simp only [evalExpr] at h
    exact evalExpr_mono e st v st' h
  | .walrusAssign name e ln, st, v, st', h => by
    simp only [evalExpr] at h
    obtain ⟨p, hp, h⟩ := Option.bind_eq_some.mp h
    obtain ⟨v1, st1⟩ := p
    obtain ⟨scopes', hsc, h⟩ := Option.bind_eq_some.mp h
    simp only [Option.pure_def, Option.some.injEq, Prod.mk.injEq] at h
    obtain ⟨rfl, rfl⟩ := h
    exact evalMono_trans (evalExpr_mono e st v1 st1 hp)
      (evalMono_of_fields rfl rfl rfl rfl rfl)
  | .walrusDecl ty name e ln, st, v, st', h => by
    simp only [evalExpr] at h
    obtain ⟨p, hp, h⟩ := Option.bind_eq_some.mp h
    obtain ⟨v1, st1⟩ := p
    simp only [Option.pure_def, Option.some.injEq, Prod.mk.injEq] at h
    obtain ⟨rfl, rfl⟩ := h
    exact evalMono_trans (evalExpr_mono e st v1 st1 hp)
      (evalMono_of_fields rfl rfl rfl rfl rfl)

theorem evalArgs_mono : ∀ (es : List Expr) (st : IState) (vs : List Value) (st' : IState),
    evalArgs es st = some (vs, st') → EvalMono st st'
  | [], st, vs, st', h => by
    simp only [evalArgs, Option.some.injEq, Prod.mk.injEq] at h
    obtain ⟨rfl, rfl⟩ := h
    exact evalMono_refl _
  | e :: rest, st, vs, st', h => by
    simp only [evalArgs] at h
    obtain ⟨p, hp, h⟩ := Option.bind_eq_some.mp h
    obtain ⟨v1, st1⟩ := p
    obtain ⟨q, hq, h⟩ := Option.bind_eq_some.mp h
    obtain ⟨vs2, st2⟩ := q
    simp only [Option.pure_def, Option.some.injEq, Prod.mk.injEq] at h
    obtain ⟨rfl, rfl⟩ := h
    exact evalMono_trans (evalExpr_mono e st v1 st1 hp) (evalArgs_mono rest st1 vs2 _ hq)

end

theorem trackAfter_none (d : List Nat) : trackAfter none d = d.getLast? := by
  unfold trackAfter
  cases d.getLast? <;> rfl

theorem emitFrameSlot_spec (st : IState) (hin : st.handlerInstalled = true) :
    (emitFrameSlot st).onChangeLog = st.onChangeLog ∧
    (emitFrameSlot st).handlerCalls = st.handlerCalls ++ (match st.lastModified with
      | none => [] | some f => [f]) := by
  unfold emitFrameSlot
  rw [hin]
  cases st.lastModified <;> simp

/-- The reset / emit bracket of a simple statement: whatever the statement
body did to the bookkeeping (summarised by EvalMono from the
reset state), the post-statement handler is called exactly once with the
frame that fired on-change last during the statement, and not at all if no
on-change fired. -/
theorem stmt_bracket {st stF : IState} (hin : st.handlerInstalled = true)
    {ln : Int} {s : Stmt}
    (hm : EvalMono (resetFrameSlot (pushStep st ln s)) stF) :
    ∃ d, (emitFrameSlot stF).onChangeLog = st.onChangeLog ++ d ∧
      (emitFrameSlot stF).handlerCalls = st.handlerCalls ++ (match d.getLast? with
        | none => [] | some f => [f]) := by
  obtain ⟨hc, hi, hsteps, d, ho, hl⟩ := hm
  have hinF : stF.handlerInstalled = true := by
    rw [hi]
    exact hin
  have hemit := emitFrameSlot_spec stF hinF
  refine ⟨d, ?_, ?_⟩
  · rw [hemit.1, ho]
    rfl
  · rw [hemit.2, hc]
    have hlast : stF.lastModified = d.getLast? := by
      rw [hl]
      exact trackAfter_none d
    rw [hlast]
    rfl

/-! ### Claim C2 -/

/-- C2 counterexample: in stepping mode with the post-statement handler
installed, the simple statement Fill{f 0 0 (2 2 2)} mutates frame f (pixel
(0,0) changes from black to (2,2,2)), yet the handler is never invoked,
because fill fires no on-change notification; this refutes the claim that a
statement that mutated a Frame always triggers exactly one handler call. -/
theorem c2_fill_statement_no_callback :
    (execStmt 5 fillStmt demoState).map
        (fun st => (st.handlerCalls, st.frames[0]?.bind fun fr => cell fr 0 0)) =
      some ([], some (2, 2, 2)) ∧
    demoState.handlerInstalled = true ∧
    demoState.frames[0]?.bind (fun fr => cell fr 0 0) = some (0, 0, 0) :=
  ⟨rfl, rfl, rfl⟩

/-- C2 (amended): in stepping mode, after a simple statement completes, the
post-statement handler (when installed) is invoked exactly once with the
frame whose on-change callback fired last during the statement, whenever at
least one on-change fired during the statement; if no on-change fired, the
handler is not invoked — even if the statement mutated a Frame through a
non-notifying path such as fill.  d is the sequence of on-change firings of
the statement. -/
theorem c2_post_statement_callback (fuel : Nat) (s : Stmt) (st st' : IState)
    (hin : st.handlerInstalled = true) (hs : isSimple s = true)
    (h : execStmt fuel s st = some st') :
    ∃ d, st'.onChangeLog = st.onChangeLog ++ d ∧
      st'.handlerCalls = st.handlerCalls ++ (match d.getLast? with
        | none => [] | some f => [f]) := by
  cases fuel with
  | zero => cases h
  | succ fuel =>
    cases s with
    | ifStmt _ _ _ _ => cases hs
    | whileStmt _ _ _ => cases hs
    | forStmt _ _ _ _ _ => cases hs
    | varDecl ty name value ln =>
      simp only [execStmt] at h
      cases value with
      | some e =>
        obtain ⟨p, hp, h⟩ := Option.bind_eq_some.mp h
        obtain ⟨v1, st2⟩ := p
        simp only [Option.pure_def, Option.some.injEq] at h
        subst h
        exact stmt_bracket hin
          (evalMono_trans (evalExpr_mono e _ _ _ hp)
            (evalMono_of_fields rfl rfl rfl rfl rfl))
      | none =>
        obtain ⟨p, hp, h⟩ := Option.bind_eq_some.mp h
        obtain ⟨v1, st2⟩ := p
        simp only [Option.pure_def, Option.some.injEq] at h
        subst h
        exact stmt_bracket hin
          (evalMono_trans (defaultValue_mono hp)
            (evalMono_of_fields rfl rfl rfl rfl rfl))
    | assignVar name value ln =>
      simp only [execStmt] at h
      obtain ⟨p, hp, h⟩ := Option.bind_eq_some.mp h
      obtain ⟨v1, st2⟩ := p
      obtain ⟨scopes', hsc, h⟩ := Option.bind_eq_some.mp h
      simp only [Option.pure_def, Option.some.injEq] at h
      subst h
      exact stmt_bracket hin
        (evalMono_trans (evalExpr_mono value _ _ _ hp)
          (evalMono_of_fields rfl rfl rfl rfl rfl))
    | pixelAssign pointer value ln =>
      simp only [execStmt] at h
      obtain ⟨p, hp, h⟩ := Option.bind_eq_some.mp h
      obtain ⟨v1, st2⟩ := p
      obtain ⟨q, hq, h⟩ := Option.bind_eq_some.mp h
      obtain ⟨pv, st3⟩ := q
      obtain ⟨st4, hap, h⟩ := Option.bind_eq_some.mp h
      simp only [Option.pure_def, Option.some.injEq] at h
      subst h
      exact stmt_bracket hin
        (evalMono_trans (evalExpr_mono value _ _ _ hp)
          (evalMono_trans (evalExpr_mono pointer _ _ _ hq) (assignPixel_mono hap)))
    | exprStmt e ln =>
      simp only [execStmt] at h
      obtain ⟨p, hp, h⟩ := Option.bind_eq_some.mp h
      obtain ⟨v1, st2⟩ := p
      simp only [Option.pure_def, Option.some.injEq] at h
      subst h
      exact stmt_bracket hin (evalExpr_mono e _ _ _ hp)

/-- C2 witness: the pixel-assignment statement f -> (0 0) = (7 7 7) on
demoState; its single setColor fires one on-change, and the theorem yields
the single handler call. -/
theorem c2_post_statement_callback_witness :
    ∃ d, (execStmt 5 pixelStmt demoState).map (fun st => st.onChangeLog) =
        some (demoState.onChangeLog ++ d) ∧
      (execStmt 5 pixelStmt demoState).map (fun st => st.handlerCalls) =
        some (demoState.handlerCalls ++ (match d.getLast? with
          | none => [] | some f => [f])) := by
  obtain ⟨st', hst'⟩ : ∃ st', execStmt 5 pixelStmt demoState = some st' :=
    ⟨_, rfl⟩
  obtain ⟨d, h1, h2⟩ :=
    c2_post_statement_callback 5 pixelStmt demoState st' rfl rfl hst'
  exact ⟨d, by rw [hst']; simpa using h1, by rw [hst']; simpa using h2⟩

/-! ### Claim C3: and / or -/

/-- C3 counterexample: evaluating false and (x = 5) from a state where x is
0 performs the right operand's walrus side effect — x ends up 5 — even
though the left operand is falsy, refuting short-circuiting; the resulting
value is the left operand, as Python's left-and-right evaluation followed by
the truthiness selection dictates. -/
theorem c3_and_evaluates_right_operand :
    (evalExpr andWalrus xState).map (fun p => (p.1, envGet p.2.scopes "x")) =
      some (.vbool false, some (.vint 5)) ∧
    envGet xState.scopes "x" = some (.vint 0) := ⟨rfl, rfl⟩

/-- C3 (amended): and and or do NOT short-circuit: eval_expr always
evaluates both operands in order (so the right operand's side effects always
occur, ending in the right operand's final state), and only then selects the
result by the truthiness rule: a and b gives b when a is truthy, else a;
a or b gives a when a is truthy, else b.  The truthiness rule itself is as
specified: null, false, 0, the empty string and the empty list are false,
every other value of those types is true. -/
theorem c3_and_or_eager (a b : Expr) (ln : Int) (st st1 st2 : IState)
    (va vb : Value)
    (ha : evalExpr a st = some (va, st1)) (hb : evalExpr b st1 = some (vb, st2)) :
    evalExpr (.binary "and" a b ln) st = some ((if truthy va then vb else va), st2) ∧
    evalExpr (.binary "or" a b ln) st = some ((if truthy va then va else vb), st2) ∧
    truthy .vnull = false ∧ truthy (.vbool false) = false ∧
    truthy (.vint 0) = false ∧ truthy (.vstr "") = false ∧
    truthy (.vlist []) = false ∧
    (∀ bo : Bool, truthy (.vbool bo) = bo) ∧
    (∀ n : Int, n ≠ 0 → truthy (.vint n) = true) ∧
    (∀ s : String, s ≠ "" → truthy (.vstr s) = true) ∧
    (∀ items : List Value, items ≠ [] → truthy (.vlist items) = true) := by
  refine ⟨?_, ?_, rfl, rfl, by simp [truthy], rfl, rfl, fun bo => rfl,
    fun n hn => by simp [truthy, hn], fun s hs => by simp [truthy, hs],
    fun items hit => by simp [truthy, hit]⟩
  · simp only [evalExpr, ha, Option.some_bind]
    simp only [evalBinary]
    norm_num
    rw [hb]
    rfl
  · simp only [evalExpr, ha, Option.some_bind]
    simp only [evalBinary]
    norm_num
    rw [hb]
    rfl

/-- C3 witness: the eager-evaluation theorem applied to the concrete
expression false and (x = 5) from the state binding x to 0. -/
theorem c3_and_or_eager_witness :
    evalExpr (.binary "and" (.lit (.vbool false) 1)
        (.walrusAssign "x" (.lit (.vint 5) 1) 1) 1) xState =
      some ((if truthy (.vbool false) then Value.vint 5 else .vbool false), xState5) :=
  (c3_and_or_eager (.lit (.vbool false) 1) (.walrusAssign "x" (.lit (.vint 5) 1) 1) 1
    xState xState xState5 (.vbool false) (.vint 5) rfl rfl).1

/-! ### Claim C8: the While loop in stepping mode -/

/-- Expression evaluation never emits a StepInfo (the fragment has no
user-function calls, the only yielding construct). -/
theorem evalExpr_steps {e : Expr} {st : IState} {v : Value} {st' : IState}
    (h : evalExpr e st = some (v, st')) : st'.steps = st.steps :=
  (evalExpr_mono e st v st' h).2.2.1

/-- C8 (confirmed): a terminating While statement in stepping mode performs
some number n of iterations; each iteration emits exactly one StepInfo
carrying the While's line immediately before evaluating the condition
(condition evaluation itself emits nothing, by evalExpr_steps); the body
runs after each of the n true conditions; and after the final, false,
condition evaluation the loop stops with no further StepInfo for the While. -/
theorem c8_while_stepinfo_per_iteration (fuel : Nat) (cond : Expr) (body : List Stmt)
    (ln : Int) (st st' : IState)
    (h : execStmt fuel (.whileStmt cond body ln) st = some st') :
    ∃ n, WhileRun cond body ln (.whileStmt cond body ln) n st st' := by
  induction fuel generalizing st with
  | zero => cases h
  | succ fuel ih =>
    simp only [execStmt] at h
    obtain ⟨p, hp, h⟩ := Option.bind_eq_some.mp h
    obtain ⟨v, st2⟩ := p
    by_cases hv : truthy v
    · rw [if_pos hv] at h
      obtain ⟨st3, hb, h⟩ := Option.bind_eq_some.mp h
      obtain ⟨n, hrun⟩ := ih st3 h
      exact ⟨n + 1, WhileRun.iter st st2 st3 st' v n fuel hp hv hb hrun⟩
    · rw [if_neg hv] at h
      cases h
      exact ⟨0, WhileRun.stop st st2 v hp (by simpa using hv)⟩

/-- C8 witness: the theorem applied to While (false) : !, which runs zero
iterations and emits exactly one StepInfo before its single (false)
condition evaluation. -/
theorem c8_while_stepinfo_witness :
    ∃ n, WhileRun (.lit (.vbool false) 3) [] 3 whileFalse n demoState
      (pushStep demoState 3 whileFalse) :=
  c8_while_stepinfo_per_iteration 5 (.lit (.vbool false) 3) [] 3 demoState
    (pushStep demoState 3 whileFalse) rfl

/-! ### C4: .qgc codec round-trip -/

theorem expectStr_append (s rest : List Char) : expectStr s (s ++ rest) = some rest := by
  induction s with
  | nil => rfl
  | cons c cs ih => simp [expectStr, ih]

theorem digitChar_toNat {n : Nat} (h : n < 10) : (Char.ofNat (48 + n)).toNat = 48 + n := by
  interval_cases n <;> decide

theorem isDig_digitChar {n : Nat} (h : n < 10) : isDig (Char.ofNat (48 + n)) = true := by
  simp only [isDig, digitChar_toNat h, decide_eq_true_eq]
  omega

theorem parseNatAux_stop (acc : Nat) (rest : List Char) (h : notDigitStart rest) :
    parseNatAux rest acc = (acc, rest) := by
  cases rest with
  | nil => rfl
  | cons c cs =>
    unfold parseNatAux
    rw [if_neg (by simpa [notDigitStart] using h)]

theorem parseNatAux_cons {c : Char} {cs : List Char} {acc : Nat} (h : isDig c = true) :
    parseNatAux (c :: cs) acc = parseNatAux cs (acc * 10 + (c.toNat - 48)) := by
  conv_lhs => unfold parseNatAux
  rw [if_pos h]

theorem parseNatAux_digitsF : ∀ (fuel n : Nat), n < fuel → ∀ (rest : List Char) (acc : Nat),
    parseNatAux (natDigitsF fuel n ++ rest) acc =
      parseNatAux rest (acc * 10 ^ (natDigitsF fuel n).length + n) := by
  intro fuel
  induction fuel with
  | zero => intro n h; omega
  | succ fuel ih =>
    intro n h rest acc
    by_cases h10 : n < 10
    · simp only [natDigitsF, if_pos h10]
      show parseNatAux (Char.ofNat (48 + n) :: rest) acc = _
      rw [parseNatAux_cons (isDig_digitChar h10), digitChar_toNat h10]
      simp
    · simp only [natDigitsF, if_neg h10]
      rw [List.append_assoc]
      rw [ih (n / 10) (by omega)]
      show parseNatAux (Char.ofNat (48 + n % 10) :: rest) _ = _
      rw [parseNatAux_cons (isDig_digitChar (by omega)), digitChar_toNat (by omega)]
      congr 1
      simp only [List.length_append, List.length_cons, List.length_nil]
      rw [pow_succ]
      ring_nf
      omega

theorem parseNatAux_digits (n : Nat) (rest : List Char) (acc : Nat) :
    parseNatAux (natDigits n ++ rest) acc =
      parseNatAux rest (acc * 10 ^ (natDigits n).length + n) :=
  parseNatAux_digitsF (n + 1) n (by omega) rest acc

theorem natDigitsF_ne_nil : ∀ (fuel n : Nat), n < fuel → natDigitsF fuel n ≠ [] := by
  intro fuel
  induction fuel with
  | zero => intro n h; omega
  | succ fuel ih =>
    intro n h
    by_cases h10 : n < 10
    · simp [natDigitsF, if_pos h10]
    · simp only [natDigitsF, if_neg h10]
      simp

theorem natDigitsF_head_digit : ∀ (fuel n : Nat), n < fuel →
    ∃ c cs, natDigitsF fuel n = c :: cs ∧ isDig c = true := by
  intro fuel
  induction fuel with
  | zero => intro n h; omega
  | succ fuel ih =>
    intro n h
    by_cases h10 : n < 10
    · exact ⟨Char.ofNat (48 + n), [], by simp [natDigitsF, if_pos h10], isDig_digitChar h10⟩
    · obtain ⟨c, cs, hd, hdig⟩ := ih (n / 10) (by omega)
      refine ⟨c, cs ++ [Char.ofNat (48 + n % 10)], ?_, hdig⟩
      simp [natDigitsF, if_neg h10, hd]

theorem parseInt_intStr (m : Int) (rest : List Char) (hrest : notDigitStart rest) :
    parseInt (intStr m ++ rest) = some (m, rest) := by
  unfold intStr
  by_cases hm : m < 0
  · rw [if_pos hm]
    obtain ⟨c, cs, hd, hdig⟩ := natDigitsF_head_digit ((-m).toNat + 1) (-m).toNat (by omega)
    have hd' : natDigits (-m).toNat = c :: cs := hd
    have hp : parseNatAux (c :: (cs ++ rest)) 0 = ((-m).toNat, rest) := by
      have h0 : (c :: (cs ++ rest)) = natDigits (-m).toNat ++ rest := by
        rw [hd']
        rfl
      rw [h0, parseNatAux_digits, parseNatAux_stop _ _ hrest]
      norm_num
    rw [hd']
    show parseInt ('-' :: (c :: (cs ++ rest))) = _
    simp only [parseInt, if_true]
    rw [if_pos hdig, hp]
    show some (-(((-m).toNat : Nat) : Int), rest) = some (m, rest)
    have hmm : (((-m).toNat : Nat) : Int) = -m := by omega
    rw [hmm]
    simp
  · rw [if_neg hm]
    obtain ⟨c, cs, hd, hdig⟩ := natDigitsF_head_digit (m.toNat + 1) m.toNat (by omega)
    have hd' : natDigits m.toNat = c :: cs := hd
    have hcne : ¬ (c = '-') := by
      intro hc
      subst hc
      simp [isDig] at hdig
    have hp : parseNatAux (c :: (cs ++ rest)) 0 = (m.toNat, rest) := by
      have h0 : (c :: (cs ++ rest)) = natDigits m.toNat ++ rest := by
        rw [hd']
        rfl
      rw [h0, parseNatAux_digits, parseNatAux_stop _ _ hrest]
      norm_num
    rw [hd']
    show parseInt (c :: (cs ++ rest)) = _
    simp only [parseInt]
    rw [if_neg hcne, if_pos hdig, hp]
    show some (((m.toNat : Nat) : Int), rest) = some (m, rest)
    have hmm : ((m.toNat : Nat) : Int) = m := by omega
    rw [hmm]



theorem notDigitStart_cons {c : Char} {cs : List Char} (h : isDig c = false) :
    notDigitStart (c :: cs) := h

theorem expectStr_pair (c1 c2 : Char) (cs : List Char) :
    expectStr [c1, c2] (c1 :: c2 :: cs) = some cs := by
  simp [expectStr]

theorem expectStr_single (c : Char) (cs : List Char) :
    expectStr [c] (c :: cs) = some cs := by
  simp [expectStr]

theorem parseTriple_tripleStr (c : Color) (rest : List Char) :
    parseTriple (tripleStr c ++ rest) = some (c, rest) := by
  obtain ⟨a, b, d⟩ := c
  have h1 : tripleStr (a, b, d) ++ rest
      = ['['] ++ (intStr a ++ (',' :: ' ' :: (intStr b ++ (',' :: ' ' :: (intStr d ++ (']' :: rest)))))) := by
    simp [tripleStr]
  rw [h1]
  unfold parseTriple
  simp only [Option.bind_eq_bind]
  rw [expectStr_append]
  simp only [Option.some_bind]
  rw [parseInt_intStr a _ (by exact notDigitStart_cons (by decide))]
  simp only [Option.some_bind]
  rw [expectStr_pair]
  simp only [Option.some_bind]
  rw [parseInt_intStr b _ (by exact notDigitStart_cons (by decide))]
  simp only [Option.some_bind]
  rw [expectStr_pair]
  simp only [Option.some_bind]
  rw [parseInt_intStr d _ (by exact notDigitStart_cons (by decide))]
  simp only [Option.some_bind]
  rw [expectStr_single]
  simp only [Option.some_bind]
  rfl

theorem joinItems_cons (s : List Char) (rest : List (List Char)) :
    joinItems (s :: rest) = s ++ sepTail rest := by
  induction rest generalizing s with
  | nil => simp [joinItems, sepTail]
  | cons t r ih =>
    show joinItems (s :: t :: r) = _
    unfold joinItems
    rw [ih t]
    simp [sepTail]

theorem sepTail_length_ge {α : Type} (P : α → List Char) (as : List α) :
    as.length ≤ (sepTail (as.map P)).length := by
  induction as with
  | nil => simp [sepTail]
  | cons a t ih =>
    show t.length + 1 ≤ (sepTail (P a :: t.map P)).length
    unfold sepTail
    simp only [List.length_cons, List.length_append]
    omega

theorem parseMore_sepTail {α : Type} (item : List Char → Option (α × List Char))
    (P : α → List Char) :
    ∀ (as : List α) (rest : List Char) (fuel : Nat),
    (∀ a ∈ as, ∀ r, item (P a ++ r) = some (a, r)) →
    as.length + 1 ≤ fuel →
    parseMore item fuel (sepTail (as.map P) ++ (']' :: rest)) = some (as, rest) := by
  intro as
  induction as with
  | nil =>
    intro rest fuel _ hfuel
    obtain ⟨f, rfl⟩ : ∃ f, fuel = f + 1 := ⟨fuel - 1, by omega⟩
    show parseMore item (f + 1) (']' :: rest) = some ([], rest)
    rfl
  | cons a t ih =>
    intro rest fuel hP hfuel
    obtain ⟨f, rfl⟩ : ∃ f, fuel = f + 1 := ⟨fuel - 1, by omega⟩
    have h1 : sepTail ((a :: t).map P) ++ (']' :: rest)
        = ',' :: ' ' :: (P a ++ (sepTail (t.map P) ++ (']' :: rest))) := by
      show sepTail (P a :: t.map P) ++ _ = _
      rw [show sepTail (P a :: t.map P) = ',' :: ' ' :: (P a ++ sepTail (t.map P)) from rfl]
      simp [List.append_assoc]
    rw [h1]
    show (do
      let (x, cs) ← item (P a ++ (sepTail (t.map P) ++ (']' :: rest)))
      let (xs, cs) ← parseMore item f cs
      pure (x :: xs, cs)) = some (a :: t, rest)
    rw [hP a (List.mem_cons_self a t) _]
    simp only [Option.bind_eq_bind, Option.some_bind]
    rw [ih rest f (fun x hx r => hP x (List.mem_cons_of_mem a hx) r) (by simp at hfuel ⊢; omega)]
    rfl

theorem parseList_listStr {α : Type} (item : List Char → Option (α × List Char))
    (P : α → List Char) (as : List α) (rest : List Char)
    (hP : ∀ a ∈ as, ∀ r, item (P a ++ r) = some (a, r))
    (hP0 : ∀ a ∈ as, ∃ cs, P a = '[' :: cs) :
    parseList item (listStr (as.map P) ++ rest) = some (as, rest) := by
  cases as with
  | nil =>
    show parseList item (('[' :: (joinItems [] ++ [']'])) ++ rest) = some ([], rest)
    rfl
  | cons a t =>
    have h1 : listStr ((a :: t).map P) ++ rest
        = '[' :: (P a ++ (sepTail (t.map P) ++ (']' :: rest))) := by
      show ('[' :: joinItems (P a :: t.map P) ++ [']']) ++ rest = _
      rw [joinItems_cons]
      simp [List.append_assoc]
    rw [h1]
    obtain ⟨cs0, hcs0⟩ := hP0 a (List.mem_cons_self a t)
    unfold parseList
    simp only [Option.bind_eq_bind]
    rw [show expectStr ['['] ('[' :: (P a ++ (sepTail (t.map P) ++ (']' :: rest))))
        = some (P a ++ (sepTail (t.map P) ++ (']' :: rest))) from rfl]
    simp only [Option.some_bind]
    rw [hcs0]
    show (do
      let (x, cs) ← item ('[' :: cs0 ++ (sepTail (t.map P) ++ (']' :: rest)))
      let (xs, cs) ← parseMore item (cs.length + 1) cs
      pure (x :: xs, cs)) = some (a :: t, rest)
    rw [← hcs0, hP a (List.mem_cons_self a t) _]
    simp only [Option.bind_eq_bind, Option.some_bind]
    rw [parseMore_sepTail item P t rest _ (fun x hx r => hP x (List.mem_cons_of_mem a hx) r)
      (by have := sepTail_length_ge P t; simp; omega)]
    rfl


theorem parsePayload_payloadStr (g : Grid) :
    parsePayload (payloadStr g) = some (64, 32, g) := by
  have h1 : payloadStr g
      = "\x7b\"w\": ".toList ++ (intStr (64 : Int) ++ (", \"h\": ".toList ++ (intStr (32 : Int) ++
        (", \"pixels\": ".toList ++ (listStr (g.map fun row => listStr (row.map tripleStr)) ++ ['\x7d']))))) := by
    simp only [payloadStr]
    rw [show "\x7b\"w\": 64, \"h\": 32, \"pixels\": ".toList
        = "\x7b\"w\": ".toList ++ (intStr (64 : Int) ++ (", \"h\": ".toList ++ (intStr (32 : Int) ++
          ", \"pixels\": ".toList))) from by decide]
    simp [List.append_assoc]
  rw [h1]
  unfold parsePayload
  simp only [Option.bind_eq_bind]
  rw [expectStr_append]
  simp only [Option.some_bind]
  rw [parseInt_intStr 64 _ (by exact (by decide : isDig ',' = false))]
  simp only [Option.some_bind]
  rw [expectStr_append]
  simp only [Option.some_bind]
  rw [parseInt_intStr 32 _ (by exact (by decide : isDig ',' = false))]
  simp only [Option.some_bind]
  rw [expectStr_append]
  simp only [Option.some_bind]
  rw [parseList_listStr (parseList parseTriple) (fun row => listStr (row.map tripleStr)) g _
    (fun row _ r => parseList_listStr parseTriple tripleStr row r
      (fun c _ rr => parseTriple_tripleStr c rr) (fun c _ => ⟨_, rfl⟩))
    (fun row _ => ⟨_, rfl⟩)]
  simp only [Option.some_bind]
  rw [expectStr_single]
  simp only [Option.some_bind]
  rfl

theorem bytesStr_strBytes (cs : List Char) : bytesStr (strBytes cs) = cs := by
  simp only [bytesStr, strBytes, List.map_map]
  rw [show Char.ofNat ∘ Char.toNat = id from funext Char.ofNat_toNat, List.map_id]


/-- C4: saving a well-formed 32x64 frame with saveQGC and loading the bytes
back with loadQGC returns the same pixel grid (zlib compress/decompress enter
as an abstract mutually-inverse pair, and the file write/read as the identity
on the byte list). -/
theorem c4_qgc_roundtrip (comp : List Nat → List Nat) (decomp : List Nat → Option (List Nat))
    (hinv : ∀ bs, decomp (comp bs) = some bs) (g : Grid) (hg : WF g) :
    loadQGC decomp (saveQGC comp g) = some g := by
  unfold saveQGC loadQGC
  have htake : (qgcMagic ++ comp (strBytes (payloadStr g))).take 4 = qgcMagic := rfl
  have hdrop : (qgcMagic ++ comp (strBytes (payloadStr g))).drop 4
      = comp (strBytes (payloadStr g)) := rfl
  rw [if_pos htake, hdrop]
  simp only [Option.bind_eq_bind]
  rw [hinv]
  simp only [Option.some_bind]
  rw [bytesStr_strBytes, parsePayload_payloadStr]
  simp only [Option.some_bind]
  simp

/-- Witness for c4_qgc_roundtrip at comp = id, decomp = some, g = blankGrid. -/
theorem c4_qgc_roundtrip_witness :
    (∀ bs : List Nat, some (id bs) = some bs) ∧ WF blankGrid ∧
      loadQGC some (saveQGC id blankGrid) = some blankGrid :=
  ⟨fun _ => rfl, ⟨rfl, by decide⟩,
    c4_qgc_roundtrip id some (fun _ => rfl) blankGrid ⟨rfl, by decide⟩⟩

end QGraphics
